import Mathlib

/-!
# Supervisor of rabbit-amazon-forwarder (`supervisor/supervisor.go`)

A shallow embedding of the supervisor: the registry of worker handles, `Start`,
`Check`, `Restart`, `stop`, and the HTTP response helpers.

Modelling decisions.

* Channels (`chan bool`) live in a heap (`World.chans`); a channel value is its index.
  A channel has a capacity and a buffer, `len(ch)` is the length of the buffer, and
  `make(chan bool)` allocates a channel of capacity 0.
* The worker tasks (`mappingEntry.Consumer.Start`, launched with `go`) are not part of
  this file of the repository.  They are the environment `Env`: at every scheduling point the
  environment lists the channel operations the tasks attempt, and says whether a task
  takes a value the supervisor offers on a channel that cannot buffer it. Tasks send
  and receive; they do not close the channels they are handed.
* A supervisor send that no task ever takes never finishes; a handler in that situation
  yields `Run.blocked` and writes no response.
* A Go map has no iteration order: every `range` over the registry visits the entries in
  an order chosen by the environment (`Env.order`, a permutation of the entries).
* `Forwarder.Name()` and `Consumer.Name()` are treated as getters; a mapping is the pair
  of the two names.
* Strings are Lean strings (valid Unicode text).
-/

namespace Supervisor

/-! ## Constants (lines 15-22) -/

def jsonType : String := "application/json"
def success : String := "success"
def notSupported : String := "not supported response format"
def acceptHeader : String := "Accept"
def contentType : String := "Content-Type"
def acceptAll : String := "*/*"

/-! ## Data model (lines 24-48) -/

/-- The Go struct `response`. -/
structure response where
  Healthy : Bool
  Message : String
deriving DecidableEq, Repr

/-- The Go struct `checkResponse`; the slice `Consumers` is `none` while it is nil. -/
structure checkResponse where
  Consumers : Option (List response)
deriving DecidableEq, Repr

/-- A channel value: the index of the channel in the heap. -/
abbrev ChanId := Nat

/-- The Go struct `consumerChannel`. -/
structure consumerChannel where
  name : String
  check : ChanId
  stop : ChanId
deriving DecidableEq, Repr

/-- One `mapping.ConsumerForwarderMapping`, reduced to the names of its two parts. -/
structure Mapping where
  Consumer : String
  Forwarder : String
deriving DecidableEq, Repr

/-- The contents of a `map[string]*consumerChannel`: entries with pairwise distinct keys. -/
abbrev Registry := List (String × consumerChannel)

/-- The Go struct `Client`; `consumers` is `none` while the map is nil. -/
structure Client where
  mappings : List Mapping
  consumers : Option Registry
deriving DecidableEq, Repr

/-- The Go function `New`. -/
def New (consumerForwarderMapping : List Mapping) : Client :=
  { mappings := consumerForwarderMapping, consumers := none }

/-! ## Runtime state: channels, tasks, environment -/

/-- The runtime state of one `chan bool`. -/
structure Chan where
  cap : Nat
  buf : List Bool
deriving DecidableEq, Repr

/-- A goroutine launched by `Start`: `Consumer.Start(Forwarder, check, stop)`. -/
structure Task where
  consumer : String
  forwarder : String
  check : ChanId
  stop : ChanId
deriving DecidableEq, Repr

/-- The state the supervisor runs in. `sent` lists the sends the supervisor has completed,
oldest first; `tick` counts the scheduling points passed. -/
structure World where
  chans : List Chan
  tasks : List Task
  sent : List (ChanId × Bool)
  logs : List String
  tick : Nat
deriving DecidableEq, Repr

/-- A channel operation attempted by a worker task. -/
inductive TaskOp where
  | send (ch : ChanId) (v : Bool)
  | recv (ch : ChanId)
deriving DecidableEq, Repr

/-- The behaviour of everything outside the supervisor. -/
structure Env where
  acts : Nat → List TaskOp
  receives : Nat → ChanId → Bool
  order : Nat → Registry → Registry
  order_perm : ∀ t l, (order t l).Perm l

/-- The outcome of running supervisor code that can park in a channel send. -/
inductive Run (α : Type) where
  | done (a : α) (w : World)
  | blocked (w : World)

/-- The Go builtin `len(ch)`; the length of a nil channel is 0. -/
def chanLen (w : World) (ch : ChanId) : Nat :=
  match w.chans[ch]? with
  | some c => c.buf.length
  | none => 0

/-- One channel operation of a task: a send goes through when the buffer has room, a
receive when the buffer holds a value; otherwise the task stays parked. -/
def taskStep (w : World) : TaskOp → World
  | .send ch v =>
    match w.chans[ch]? with
    | some c =>
      if c.buf.length < c.cap then
        { w with chans := w.chans.set ch { c with buf := c.buf ++ [v] } }
      else w
    | none => w
  | .recv ch =>
    match w.chans[ch]? with
    | some c => { w with chans := w.chans.set ch { c with buf := c.buf.tail } }
    | none => w

/-- A scheduling point: the tasks run the operations the environment gives them. -/
def yield (env : Env) (w : World) : World :=
  { (env.acts w.tick).foldl taskStep w with tick := w.tick + 1 }

/-- The supervisor statement `ch <- v`. With room in the buffer the value is queued. Without
room the send finishes only if a task takes a value from the channel, which then sees
the oldest value. A send on a nil channel never finishes. -/
def chanSend (env : Env) (w : World) (ch : ChanId) (v : Bool) : Option World :=
  match w.chans[ch]? with
  | none => none
  | some c =>
    if c.buf.length < c.cap then
      some { w with chans := w.chans.set ch { c with buf := c.buf ++ [v] },
                    sent := w.sent ++ [(ch, v)], tick := w.tick + 1 }
    else if env.receives w.tick ch then
      some { w with chans := w.chans.set ch { c with buf := (c.buf ++ [v]).tail },
                    sent := w.sent ++ [(ch, v)], tick := w.tick + 1 }
    else none

/-- A call of the logger. -/
def logLine (w : World) (msg : String) : World :=
  { w with logs := w.logs ++ [msg] }

/-! ## Go maps -/

/-- The entries a `range` can visit; a nil map has none. -/
def mapEntries (m : Option Registry) : Registry :=
  m.getD []

/-- The Go statement `m[k] = v`. -/
def mapInsert (m : Registry) (k : String) (v : consumerChannel) : Registry :=
  m.filter (fun e => e.1 != k) ++ [(k, v)]

/-! ## HTTP request and response writer -/

/-- An `http.Request`, reduced to its header: canonical keys with their values. -/
structure Request where
  Header : List (String × List String)
deriving DecidableEq, Repr

/-- The method `Header.Get`: the first value stored under the key, or `""`. -/
def headerGet (h : List (String × List String)) (key : String) : String :=
  match h.find? (fun e => e.1 == key) with
  | some (_, v :: _) => v
  | _ => ""

/-- An `http.ResponseWriter`: headers set, status line written, body written. -/
structure ResponseWriter where
  header : List (String × String)
  status : Option Nat
  body : String
deriving DecidableEq, Repr

/-- The writer a handler is called with. -/
def freshWriter : ResponseWriter :=
  { header := [], status := none, body := "" }

/-- The call `w.Header().Set(k, v)`. -/
def ResponseWriter.Set (w : ResponseWriter) (k v : String) : ResponseWriter :=
  { w with header := w.header.filter (fun e => e.1 != k) ++ [(k, v)] }

/-- The call `w.WriteHeader(code)`: only the first call writes the status line. -/
def ResponseWriter.WriteHeader (w : ResponseWriter) (code : Nat) : ResponseWriter :=
  match w.status with
  | none => { w with status := some code }
  | some _ => w

/-- The call `w.Write(bytes)`: writes status 200 first when no status line was written. -/
def ResponseWriter.Write (w : ResponseWriter) (bytes : String) : ResponseWriter :=
  let w1 := w.WriteHeader 200
  { w1 with body := w1.body ++ bytes }

/-! ## Library functions used by the supervisor -/

/-- Whether the first list starts with the second. -/
def startsWith : List Char → List Char → Bool
  | _, [] => true
  | [], _ :: _ => false
  | c :: cs, p :: ps => c == p && startsWith cs ps

/-- Whether the second list occurs in the first as a contiguous block. -/
def containsChars : List Char → List Char → Bool
  | [], sub => sub.isEmpty
  | c :: cs, sub => startsWith (c :: cs) sub || containsChars cs sub

/-- The Go function `strings.Contains`. -/
def stringsContains (s substr : String) : Bool :=
  containsChars s.data substr.data

/-- A hexadecimal digit, lower case. -/
def hexDigit (n : Nat) : Char :=
  if n < 10 then Char.ofNat (48 + n) else Char.ofNat (87 + n)

/-- How `encoding/json` writes one character inside a string (with HTML escaping, the
default of `json.Marshal`; `\b` and `\f` as Go 1.22 and later write them). -/
def jsonEscapeChar (c : Char) : List Char :=
  if c = '"' then ['\\', '"']
  else if c = '\\' then ['\\', '\\']
  else if c = '\n' then ['\\', 'n']
  else if c = '\r' then ['\\', 'r']
  else if c = '\t' then ['\\', 't']
  else if c.toNat = 8 then ['\\', 'b']
  else if c.toNat = 12 then ['\\', 'f']
  else if c.toNat < 32 ∨ c = '<' ∨ c = '>' ∨ c = '&' then
    ['\\', 'u', '0', '0', hexDigit (c.toNat / 16), hexDigit (c.toNat % 16)]
  else if c.toNat = 8232 then ['\\', 'u', '2', '0', '2', '8']
  else if c.toNat = 8233 then ['\\', 'u', '2', '0', '2', '9']
  else [c]

/-- A Go string as `json.Marshal` writes it. -/
def jsonString (s : String) : String :=
  "\"" ++ String.mk (s.data.flatMap jsonEscapeChar) ++ "\""

/-- A Go bool as `json.Marshal` writes it. -/
def jsonBool (b : Bool) : String :=
  if b then "true" else "false"

/-- The function `json.Marshal` on a `response`; it cannot fail on this type. -/
def marshalResponse (r : response) : Except String String :=
  .ok ("\x7b\"healthy\":" ++ jsonBool r.Healthy ++ ",\"message\":" ++ jsonString r.Message ++ "\x7d")

/-- The text of one `response` inside an array. -/
def responseText (r : response) : String :=
  "\x7b\"healthy\":" ++ jsonBool r.Healthy ++ ",\"message\":" ++ jsonString r.Message ++ "\x7d"

/-- The function `json.Marshal` on a `*checkResponse`: a nil slice is written `null`, any
other slice as an array. -/
def marshalCheckResponse (c : checkResponse) : Except String String :=
  match c.Consumers with
  | none => .ok "\x7b\"consumers\":null\x7d"
  | some l => .ok ("\x7b\"consumers\":[" ++ ",".intercalate (l.map responseText) ++ "]\x7d")

/-- The Go builtin `append` on the slice of a `checkResponse`. -/
def appendResponse (c : checkResponse) (r : response) : checkResponse :=
  match c.Consumers with
  | none => { Consumers := some [r] }
  | some l => { Consumers := some (l ++ [r]) }

/-- The call `fmt.Sprintf("Number of failed consumers: %d", stopped)`. The counter is at
most the number of registry entries, far below the range of a Go `int`. -/
def failedMessage (stopped : Nat) : String :=
  "Number of failed consumers: " ++ Nat.repr stopped

/-! ## Response helpers (lines 131-171) -/

/-- The Go function `errorResponse`. -/
def errorResponse (w : ResponseWriter) (message : String) : ResponseWriter :=
  ((w.Set contentType jsonType).WriteHeader 500).Write message

/-- The Go function `notAcceptableResponse`. -/
def notAcceptableResponse (w : ResponseWriter) : ResponseWriter :=
  let w1 := (w.Set contentType jsonType).WriteHeader 406
  match marshalResponse { Healthy := false, Message := notSupported } with
  | .error _ => w1.WriteHeader 500
  | .ok bytes => w1.Write bytes

/-- The Go function `successResponse`. -/
def successResponse (w : ResponseWriter) : ResponseWriter :=
  let w1 := (w.Set contentType jsonType).WriteHeader 200
  match marshalResponse { Healthy := true, Message := success } with
  | .error _ => w1.WriteHeader 200
  | .ok bytes => w1.Write bytes

/-- The Go function `checkSuccess`. -/
def checkSuccess (w : ResponseWriter) (c : checkResponse) : ResponseWriter :=
  let w1 := (w.Set contentType jsonType).WriteHeader 200
  match marshalCheckResponse c with
  | .error _ => w1.WriteHeader 200
  | .ok bytes => w1.Write bytes

/-! ## The supervisor (lines 50-129) -/

/-- The Go expression `make(chan bool)`: a fresh channel of capacity 0. -/
def makeChan (w : World) : ChanId × World :=
  (w.chans.length, { w with chans := w.chans ++ [{ cap := 0, buf := [] }] })

/-- The Go function `makeConsumerChannel`. -/
def makeConsumerChannel (name : String) (w : World) : consumerChannel × World :=
  let (check, w1) := makeChan w
  let (stop, w2) := makeChan w1
  ({ name := name, check := check, stop := stop }, w2)

/-- The body of the loop of `Start` (lines 54-59) for one mapping. -/
def startEntry (mappingEntry : Mapping) (reg : Registry) (w : World) : Registry × World :=
  let (channel, w1) := makeConsumerChannel mappingEntry.Forwarder w
  let reg1 := mapInsert reg mappingEntry.Forwarder channel
  let w2 := { w1 with tasks := w1.tasks ++ [{ consumer := mappingEntry.Consumer,
                                              forwarder := mappingEntry.Forwarder,
                                              check := channel.check, stop := channel.stop }] }
  (reg1, logLine w2 "Started consumer with forwarder")

/-- The loop of `Start` (lines 53-60) over the mappings still to visit. -/
def startLoop : List Mapping → Registry → World → Registry × World
  | [], reg, w => (reg, w)
  | mappingEntry :: rest, reg, w =>
    let (reg1, w1) := startEntry mappingEntry reg w
    startLoop rest reg1 w1

/-- The Go method `Client.Start`; the first component is the returned `error`. -/
def Client.Start (c : Client) (w : World) : Option String × Client × World :=
  let (reg, w1) := startLoop c.mappings [] w
  (none, { c with consumers := some reg }, w1)

/-- The body of the loop of `Check` (lines 80-97) for one registry entry. -/
def checkEntry (env : Env) (consumer : consumerChannel) (stopped : Nat) (resp : checkResponse)
    (w : World) : Run (Nat × checkResponse) :=
  let w1 := yield env w
  if chanLen w1 consumer.check > 0 then
    .done (stopped + 1, resp) w1
  else
    match chanSend env w1 consumer.check true with
    | none => .blocked w1
    | some w2 =>
      let w3 := yield env w2
      let r0 : response := { Healthy := false, Message := "" }
      let failed : response := { Healthy := false, Message := "Error with consumer" }
      let healthy : response := { Healthy := true, Message := "Consumer Name: " ++ consumer.name }
      let (stopped1, r1) :=
        if chanLen w3 consumer.check > 0 then (stopped + 1, failed) else (stopped, r0)
      let w4 := yield env w3
      let r2 := if chanLen w4 consumer.check = 0 then healthy else r1
      .done (stopped1, appendResponse resp r2) w4

/-- The loop of `Check` (lines 79-98) over the entries still to visit. -/
def checkLoop (env : Env) : Registry → Nat → checkResponse → World → Run (Nat × checkResponse)
  | [], stopped, resp, w => .done (stopped, resp) w
  | (_, consumer) :: rest, stopped, resp, w =>
    match checkEntry env consumer stopped resp w with
    | .blocked w1 => .blocked w1
    | .done (stopped1, resp1) w1 => checkLoop env rest stopped1 resp1 w1

/-- The test of the Accept header at lines 69-71. -/
def acceptRefused (accept : String) : Bool :=
  accept != "" && !stringsContains accept jsonType && !stringsContains accept acceptAll

/-- The end of `Check` (lines 99-105). -/
def checkReply (w : ResponseWriter) (stopped : Nat) (resp : checkResponse) : ResponseWriter :=
  if stopped > 0 then errorResponse w (failedMessage stopped)
  else checkSuccess w resp

/-- The Go method `Client.Check`. -/
def Client.Check (c : Client) (env : Env) (w : World) (rw : ResponseWriter) (r : Request) :
    Run ResponseWriter :=
  let resp : checkResponse := { Consumers := none }
  let accept := headerGet r.Header acceptHeader
  if acceptRefused accept then
    .done (notAcceptableResponse rw) (logLine w "Wrong Accept header")
  else
    match checkLoop env (env.order w.tick (mapEntries c.consumers)) 0 resp w with
    | .blocked w1 => .blocked w1
    | .done (stopped, resp1) w1 => .done (checkReply rw stopped resp1) w1

/-- The loop of `stop` (lines 120-122) over the entries still to visit. -/
def stopLoop (env : Env) : Registry → World → Run Unit
  | [], w => .done () w
  | (_, consumer) :: rest, w =>
    let w1 := yield env w
    match chanSend env w1 consumer.stop true with
    | none => .blocked w1
    | some w2 => stopLoop env rest w2

/-- The Go method `Client.stop`. -/
def Client.stop (c : Client) (env : Env) (w : World) : Run Unit :=
  stopLoop env (env.order w.tick (mapEntries c.consumers)) w

/-- The end of `Restart` (lines 111-116), given the `error` that `Start` returned. -/
def restartReply (err : Option String) (rw : ResponseWriter) (w : World) :
    ResponseWriter × World :=
  match err with
  | some e => (errorResponse rw "", logLine w e)
  | none => (successResponse rw, w)

/-- The Go method `Client.Restart`. -/
def Client.Restart (c : Client) (env : Env) (w : World) (rw : ResponseWriter) (_r : Request) :
    Run (Client × ResponseWriter) :=
  match c.stop env w with
  | .blocked w1 => .blocked w1
  | .done _ w1 =>
    let (err, c1, w2) := c.Start w1
    let (rw1, w3) := restartReply err rw w2
    .done (c1, rw1) w3

/-! ## A `Start` and a `Check` running as two goroutines

`Start` and `Check` share the field `c.consumers` without any lock. The statements of
`Start` (line 52, each round of the loop at lines 53-60, the return) and of `Check` (the
Accept test with the evaluation of `range c.consumers` at line 79, each round of the loop at
lines 80-97, the reply at lines 99-105) are the steps of two goroutines over one shared
client and world; a schedule says which goroutine takes the next step. `range` evaluates
the map once; entries a concurrent `Start` inserts after that are not visited (an
iteration may skip entries created during it). -/

/-- Where a running `Start` stands: before line 52, in the loop with the mappings still to
visit, or returned. -/
inductive StartPc where
  | entry
  | loop (todo : List Mapping)
  | returned
deriving DecidableEq, Repr

/-- Where a running `Check` stands: before the Accept test, in the loop with the entries
still to visit and its two accumulators, parked in a probe, or returned with its reply. -/
inductive CheckPc where
  | entry
  | loop (todo : Registry) (stopped : Nat) (resp : checkResponse)
  | blocked
  | returned (rw : ResponseWriter)
deriving DecidableEq, Repr

/-- The two goroutines with the client and the world they share. -/
structure Sys where
  client : Client
  world : World
  startPc : StartPc
  checkPc : CheckPc
deriving DecidableEq, Repr

/-- The goroutine that takes the next step. -/
inductive Actor where
  | start
  | check
deriving DecidableEq, Repr

/-- One step of `Start`: line 52, one round of the loop, or the return at line 61. -/
def startStep (s : Sys) : Sys :=
  match s.startPc with
  | .entry =>
    { s with client := { mappings := s.client.mappings, consumers := some [] },
             startPc := .loop s.client.mappings }
  | .loop [] => { s with startPc := .returned }
  | .loop (mappingEntry :: rest) =>
    { s with client := { mappings := s.client.mappings,
                         consumers := some (startEntry mappingEntry
                           (mapEntries s.client.consumers) s.world).1 },
             world := (startEntry mappingEntry (mapEntries s.client.consumers) s.world).2,
             startPc := .loop rest }
  | .returned => s

/-- One step of `Check`, called with a fresh writer: the Accept test and the evaluation of
the range, one round of the loop, or the reply. -/
def checkStep (env : Env) (r : Request) (s : Sys) : Sys :=
  match s.checkPc with
  | .entry =>
    if acceptRefused (headerGet r.Header acceptHeader) then
      { s with world := logLine s.world "Wrong Accept header",
               checkPc := .returned (notAcceptableResponse freshWriter) }
    else
      { s with checkPc := .loop (env.order s.world.tick (mapEntries s.client.consumers)) 0
                            { Consumers := none } }
  | .loop [] stopped resp =>
    { s with checkPc := .returned (checkReply freshWriter stopped resp) }
  | .loop ((_, consumer) :: rest) stopped resp =>
    match checkEntry env consumer stopped resp s.world with
    | .blocked w1 => { s with world := w1, checkPc := .blocked }
    | .done (stopped1, resp1) w1 => { s with world := w1, checkPc := .loop rest stopped1 resp1 }
  | .blocked => s
  | .returned _ => s

/-- One step of the goroutine the schedule names. -/
def step (env : Env) (r : Request) (s : Sys) : Actor → Sys
  | .start => startStep s
  | .check => checkStep env r s

/-- The run of a schedule. -/
def run (env : Env) (r : Request) (sched : List Actor) (s : Sys) : Sys :=
  sched.foldl (step env r) s

/-- A call of `Start` and a call of `Check` that are both about to begin. -/
def Sys.init (c : Client) (w : World) : Sys :=
  { client := c, world := w, startPc := .entry, checkPc := .entry }

/-! ## Concrete inputs used below -/

/-- The world before anything ran. -/
def World.init : World :=
  { chans := [], tasks := [], sent := [], logs := [], tick := 0 }

/-- Workers that take every value offered and attempt nothing themselves; the registry is
visited in storage order. -/
def Env.responsive : Env :=
  { acts := fun _ => [], receives := fun _ _ => true, order := fun _ l => l,
    order_perm := fun _ l => List.Perm.refl l }

/-- Workers that never take a value and attempt nothing themselves. -/
def Env.silent : Env :=
  { acts := fun _ => [], receives := fun _ _ => false, order := fun _ l => l,
    order_perm := fun _ l => List.Perm.refl l }

/-- The two mappings of the scenario in the specification. -/
def twoMappings : List Mapping :=
  [{ Consumer := "orderQueue", Forwarder := "forwarderA" },
   { Consumer := "priceQueue", Forwarder := "forwarderB" }]

/-- A request without headers. -/
def plainRequest : Request := { Header := [] }

/-- Workers of which only the one on channel 3 takes a value. -/
def Env.secondOnly : Env :=
  { acts := fun _ => [], receives := fun _ ch => ch == 3, order := fun _ l => l,
    order_perm := fun _ l => List.Perm.refl l }

/-- A worker that keeps trying to write a failure report on channel 0 and takes nothing. -/
def Env.reporting : Env :=
  { acts := fun _ => [TaskOp.send 0 false], receives := fun _ _ => false,
    order := fun _ l => l, order_perm := fun _ l => List.Perm.refl l }

/-- A worker that keeps trying to write a failure report on channel 0, next to a task that
takes what the supervisor offers. -/
def Env.reportingTaken : Env :=
  { acts := fun _ => [TaskOp.send 0 false], receives := fun _ _ => true,
    order := fun _ l => l, order_perm := fun _ l => List.Perm.refl l }

/-- Two mappings with the same Forwarder name. -/
def sameName : List Mapping :=
  [{ Consumer := "orderQueue", Forwarder := "forwarderA" },
   { Consumer := "priceQueue", Forwarder := "forwarderA" }]

/-- The client of the specification scenario after its first `Start`. -/
def startedClient : Client := ((New twoMappings).Start World.init).2.1

/-- The world of the specification scenario after the first `Start`. -/
def startedWorld : World := ((New twoMappings).Start World.init).2.2

/-- A request whose only header is `Accept` with one value. -/
def acceptRequest (v : String) : Request := { Header := [("Accept", [v])] }

/-! ## Notions used to state the properties -/

/-- Channel `i` is as `make(chan bool)` leaves it: capacity 0 and nothing buffered. -/
def Unbuf (w : World) (i : ChanId) : Prop :=
  w.chans[i]? = some { cap := 0, buf := [] }

instance (w : World) (i : ChanId) : Decidable (Unbuf w i) := by
  unfold Unbuf; infer_instance

/-- Every check channel of the registry is as `makeConsumerChannel` makes it. -/
def RegUnbuf (w : World) (reg : Registry) : Prop :=
  ∀ e ∈ reg, Unbuf w e.2.check

instance (w : World) (reg : Registry) : Decidable (RegUnbuf w reg) := by
  unfold RegUnbuf; infer_instance

/-- The handles that the loop of `Start` makes for a list of mappings when the next free
channel index is `base`, each paired with its key. -/
def handlesFrom (base : Nat) : List Mapping → Registry
  | [] => []
  | m :: rest =>
    (m.Forwarder, { name := m.Forwarder, check := base, stop := base + 1 })
      :: handlesFrom (base + 2) rest

/-- The tasks that the loop of `Start` launches for a list of mappings when the next free
channel index is `base`. -/
def tasksFrom (base : Nat) : List Mapping → List Task
  | [] => []
  | m :: rest =>
    { consumer := m.Consumer, forwarder := m.Forwarder, check := base, stop := base + 1 }
      :: tasksFrom (base + 2) rest

/-- Of the entries with the same key only the last one. -/
def keepLast : Registry → Registry
  | [] => []
  | e :: rest => if rest.any (fun x => x.1 == e.1) then keepLast rest else e :: keepLast rest

/-- The verdict of `Check` for a worker it finds healthy (line 94). -/
def healthyVerdict (e : String × consumerChannel) : response :=
  { Healthy := true, Message := "Consumer Name: " ++ e.2.name }

/-- The `checkResponse` after appending the given verdicts to the nil slice. -/
def verdicts (l : List response) : checkResponse :=
  l.foldl appendResponse { Consumers := none }

/-- The stop signals that `stop` sends for the entries it visits. -/
def stopSignals (l : Registry) : List (ChanId × Bool) :=
  l.map (fun e => (e.2.stop, true))

/-- The worlds that the supervisor and the workers can reach from a world: scheduling
points, supervisor sends that finish, log lines. -/
inductive Reach (env : Env) : World → World → Prop where
  | refl (w : World) : Reach env w w
  | yield {w w1 : World} : Reach env w w1 → Reach env w (yield env w1)
  | send {w w1 w2 : World} {ch : ChanId} {v : Bool} :
      Reach env w w1 → chanSend env w1 ch v = some w2 → Reach env w w2
  | log {w w1 : World} (msg : String) : Reach env w w1 → Reach env w (logLine w1 msg)

/-- The registry has exactly one entry per mapping, keyed by the Forwarder names, and each
handle carries its key as its name. -/
def Registered (ms : List Mapping) (m : Option Registry) : Prop :=
  ∃ reg, m = some reg ∧ reg.length = ms.length ∧
    (∀ k, k ∈ reg.map Prod.fst ↔ k ∈ ms.map Mapping.Forwarder) ∧
    (reg.map Prod.fst).Nodup ∧
    ∀ k h, (k, h) ∈ reg → h.name = k

/-- The JSON text of the verdict for a healthy worker with the given name. -/
def healthyText (name : String) : String :=
  "\x7b\"healthy\":true,\"message\":" ++ jsonString ("Consumer Name: " ++ name) ++ "\x7d"

/-! ## Channels of capacity 0 -/

theorem chanLen_unbuf {w : World} {i : ChanId} (h : Unbuf w i) : chanLen w i = 0 := by
  unfold Unbuf at h
  simp [chanLen, h]

theorem taskStep_unbuf (w : World) (op : TaskOp) (i : ChanId) (h : Unbuf w i) :
    Unbuf (taskStep w op) i := by
  unfold Unbuf at h ⊢
  cases op with
  | send ch v =>
    simp only [taskStep]
    cases hc : w.chans[ch]? with
    | none => simpa using h
    | some c =>
      simp only
      split
      · rename_i hlt
        by_cases hi : ch = i
        · subst hi
          rw [hc] at h
          cases h
          simp at hlt
        · simp [List.getElem?_set_ne hi, h]
      · exact h
  | recv ch =>
    simp only [taskStep]
    cases hc : w.chans[ch]? with
    | none => simpa using h
    | some c =>
      simp only
      by_cases hi : ch = i
      · subst hi
        rw [hc] at h
        cases h
        have hlt : ch < w.chans.length := by
          rcases List.getElem?_eq_some_iff.1 hc with ⟨hl, _⟩
          exact hl
        simp [List.getElem?_set_self hlt]
      · simp [List.getElem?_set_ne hi, h]

theorem foldl_taskStep_unbuf (ops : List TaskOp) (w : World) (i : ChanId) (h : Unbuf w i) :
    Unbuf (ops.foldl taskStep w) i := by
  induction ops generalizing w with
  | nil => exact h
  | cons op rest ih => exact ih _ (taskStep_unbuf w op i h)

theorem yield_unbuf (env : Env) (w : World) (i : ChanId) (h : Unbuf w i) :
    Unbuf (yield env w) i := by
  have := foldl_taskStep_unbuf (env.acts w.tick) w i h
  unfold Unbuf at this ⊢
  simpa [yield] using this

theorem chanSend_unbuf {env : Env} {w w1 : World} {ch : ChanId} {v : Bool}
    (hs : chanSend env w ch v = some w1) (i : ChanId) (h : Unbuf w i) : Unbuf w1 i := by
  unfold Unbuf at h ⊢
  unfold chanSend at hs
  cases hc : w.chans[ch]? with
  | none => simp [hc] at hs
  | some c =>
    have hlt : ch < w.chans.length := by
      rcases List.getElem?_eq_some_iff.1 hc with ⟨hl, _⟩
      exact hl
    simp only [hc] at hs
    by_cases hi : ch = i
    · subst hi
      rw [hc] at h
      cases h
      simp at hs
      rcases hs with ⟨_, rfl⟩
      simp [List.getElem?_set_self hlt]
    · split at hs
      · cases hs
        simp [List.getElem?_set_ne hi, h]
      · split at hs
        · cases hs
          simp [List.getElem?_set_ne hi, h]
        · cases hs

theorem chanSend_of_unbuf (env : Env) {w : World} {ch : ChanId} (v : Bool) (h : Unbuf w ch) :
    chanSend env w ch v =
      if env.receives w.tick ch then
        some { w with chans := w.chans.set ch { cap := 0, buf := [] },
                      sent := w.sent ++ [(ch, v)], tick := w.tick + 1 }
      else none := by
  unfold Unbuf at h
  simp [chanSend, h]

theorem logLine_unbuf (w : World) (msg : String) (i : ChanId) (h : Unbuf w i) :
    Unbuf (logLine w msg) i := h

theorem reach_unbuf {env : Env} {w w1 : World} (hr : Reach env w w1) (i : ChanId)
    (h : Unbuf w i) : Unbuf w1 i := by
  induction hr with
  | refl => exact h
  | yield _ ih => exact yield_unbuf env _ i ih
  | send _ hs ih => exact chanSend_unbuf hs i ih
  | log msg _ ih => exact logLine_unbuf _ msg i ih

/-! ## The registry that `Start` builds -/

theorem startEntry_fst (m : Mapping) (reg : Registry) (w : World) :
    (startEntry m reg w).1 =
      mapInsert reg m.Forwarder
        { name := m.Forwarder, check := w.chans.length, stop := w.chans.length + 1 } := by
  simp [startEntry, makeConsumerChannel, makeChan]

theorem startEntry_chans (m : Mapping) (reg : Registry) (w : World) :
    (startEntry m reg w).2.chans
      = w.chans ++ [{ cap := 0, buf := [] }, { cap := 0, buf := [] }] := by
  simp [startEntry, makeConsumerChannel, makeChan, logLine]

theorem startEntry_tasks (m : Mapping) (reg : Registry) (w : World) :
    (startEntry m reg w).2.tasks
      = w.tasks ++ [{ consumer := m.Consumer, forwarder := m.Forwarder,
                      check := w.chans.length, stop := w.chans.length + 1 }] := by
  simp [startEntry, makeConsumerChannel, makeChan, logLine]

theorem startEntry_sent (m : Mapping) (reg : Registry) (w : World) :
    (startEntry m reg w).2.sent = w.sent ∧ (startEntry m reg w).2.tick = w.tick := by
  simp [startEntry, makeConsumerChannel, makeChan, logLine]

theorem startLoop_fst (ms : List Mapping) (reg : Registry) (w : World) :
    (startLoop ms reg w).1
      = (handlesFrom w.chans.length ms).foldl (fun r e => mapInsert r e.1 e.2) reg := by
  induction ms generalizing reg w with
  | nil => rfl
  | cons m rest ih =>
    simp only [startLoop, handlesFrom, List.foldl_cons]
    rw [ih, startEntry_fst, startEntry_chans]
    simp

theorem startLoop_chans (ms : List Mapping) (reg : Registry) (w : World) :
    (startLoop ms reg w).2.chans
      = w.chans ++ List.replicate (2 * ms.length) { cap := 0, buf := [] } := by
  induction ms generalizing reg w with
  | nil => simp [startLoop]
  | cons m rest ih =>
    simp only [startLoop]
    rw [ih, startEntry_chans]
    simp only [List.length_cons, Nat.mul_add, Nat.mul_one, List.append_assoc]
    congr 1

theorem startLoop_tasks (ms : List Mapping) (reg : Registry) (w : World) :
    (startLoop ms reg w).2.tasks = w.tasks ++ tasksFrom w.chans.length ms := by
  induction ms generalizing reg w with
  | nil => simp [startLoop, tasksFrom]
  | cons m rest ih =>
    simp only [startLoop, tasksFrom]
    rw [ih, startEntry_tasks, startEntry_chans]
    simp

theorem startLoop_sent (ms : List Mapping) (reg : Registry) (w : World) :
    (startLoop ms reg w).2.sent = w.sent ∧ (startLoop ms reg w).2.tick = w.tick := by
  induction ms generalizing reg w with
  | nil => simp [startLoop]
  | cons m rest ih =>
    simp only [startLoop]
    rw [(ih _ _).1, (ih _ _).2]
    exact startEntry_sent m reg w

theorem foldl_mapInsert (l reg : Registry) :
    l.foldl (fun r e => mapInsert r e.1 e.2) reg
      = reg.filter (fun x => !(l.any (fun e => e.1 == x.1))) ++ keepLast l := by
  induction l generalizing reg with
  | nil => simp [keepLast]
  | cons e rest ih =>
    simp only [List.foldl_cons]
    rw [ih]
    simp only [mapInsert, List.filter_append, List.filter_filter, keepLast, List.any_cons]
    have hf : List.filter (fun a => (!rest.any fun e => e.1 == a.1) && a.1 != e.1) reg
        = List.filter (fun x => !(e.1 == x.1 || rest.any fun e => e.1 == x.1)) reg := by
      apply List.filter_congr
      intro x _
      have hb : (x.1 != e.1) = !(e.1 == x.1) := by
        rw [bne, BEq.comm]
      rw [hb]
      cases (e.1 == x.1) <;> cases (rest.any fun e => e.1 == x.1) <;> rfl
    rw [hf]
    by_cases ha : rest.any (fun x => x.1 == e.1) = true
    · simp [ha]
    · simp [ha]

theorem keepLast_keys (l : Registry) :
    (keepLast l).map Prod.fst = (l.map Prod.fst).dedup := by
  induction l with
  | nil => rfl
  | cons e rest ih =>
    simp only [keepLast, List.map_cons]
    by_cases ha : rest.any (fun x => x.1 == e.1) = true
    · have hm : e.1 ∈ rest.map Prod.fst := by
        simp only [List.any_eq_true] at ha
        rcases ha with ⟨x, hx, hxe⟩
        exact List.mem_map.2 ⟨x, hx, by simpa using hxe⟩
      rw [if_pos ha, List.dedup_cons_of_mem hm, ih]
    · have hm : e.1 ∉ rest.map Prod.fst := by
        intro hmem
        apply ha
        rcases List.mem_map.1 hmem with ⟨x, hx, hxe⟩
        exact List.any_eq_true.2 ⟨x, hx, by simpa using hxe⟩
      rw [if_neg ha, List.dedup_cons_of_not_mem hm, List.map_cons, ih]

theorem keepLast_of_nodup (l : Registry) (h : (l.map Prod.fst).Nodup) : keepLast l = l := by
  induction l with
  | nil => rfl
  | cons e rest ih =>
    simp only [List.map_cons, List.nodup_cons] at h
    have ha : ¬ rest.any (fun x => x.1 == e.1) = true := by
      intro ha
      simp only [List.any_eq_true] at ha
      rcases ha with ⟨x, hx, hxe⟩
      exact h.1 (List.mem_map.2 ⟨x, hx, by simpa using hxe⟩)
    simp only [keepLast, if_neg ha, ih h.2]

theorem keepLast_mem (l : Registry) (e : String × consumerChannel) :
    e ∈ keepLast l ↔
      ∃ i, l[i]? = some e ∧ ∀ (j : Nat) (x : String × consumerChannel), i < j → l[j]? = some x → x.1 ≠ e.1 := by
  induction l with
  | nil => simp [keepLast]
  | cons a rest ih =>
    have hrest : e ∈ keepLast rest →
        ∃ i, (a :: rest)[i]? = some e ∧
          ∀ (j : Nat) (x : String × consumerChannel), i < j → (a :: rest)[j]? = some x → x.1 ≠ e.1 := by
      intro hmem
      rcases (ih.1 hmem) with ⟨i, hi, hlast⟩
      refine ⟨i + 1, by simpa using hi, ?_⟩
      intro j x hij hj
      cases j with
      | zero => omega
      | succ j => exact hlast j x (by omega) (by simpa using hj)
    have hback : ∀ i, (a :: rest)[i + 1]? = some e →
        (∀ (j : Nat) (x : String × consumerChannel), i + 1 < j → (a :: rest)[j]? = some x → x.1 ≠ e.1) → e ∈ keepLast rest := by
      intro i hi hlast
      refine ih.2 ⟨i, by simpa using hi, ?_⟩
      intro j x hij hj
      exact hlast (j + 1) x (by omega) (by simpa using hj)
    simp only [keepLast]
    by_cases ha : rest.any (fun x => x.1 == a.1) = true
    · rw [if_pos ha]
      constructor
      · exact hrest
      · rintro ⟨i, hi, hlast⟩
        cases i with
        | succ i => exact hback i hi hlast
        | zero =>
          exfalso
          simp only [List.getElem?_cons_zero, Option.some.injEq] at hi
          subst hi
          simp only [List.any_eq_true] at ha
          rcases ha with ⟨x, hx, hxe⟩
          rcases List.getElem?_of_mem hx with ⟨j, hj⟩
          exact hlast (j + 1) x (by omega) (by simpa using hj) (by simpa using hxe)
    · rw [if_neg ha, List.mem_cons]
      constructor
      · rintro (rfl | hmem)
        · refine ⟨0, by simp, ?_⟩
          intro j x hj hx hxe
          cases j with
          | zero => omega
          | succ j =>
            apply ha
            simp only [List.getElem?_cons_succ] at hx
            exact List.any_eq_true.2 ⟨x, List.getElem?_mem hx, by simpa using hxe⟩
        · exact hrest hmem
      · rintro ⟨i, hi, hlast⟩
        cases i with
        | zero =>
          left
          simpa using hi.symm
        | succ i => exact Or.inr (hback i hi hlast)

theorem handlesFrom_getElem? (ms : List Mapping) (base i : Nat) :
    (handlesFrom base ms)[i]? =
      (ms[i]?).map (fun m =>
        (m.Forwarder, { name := m.Forwarder, check := base + 2 * i, stop := base + 2 * i + 1 })) := by
  induction ms generalizing base i with
  | nil => simp [handlesFrom]
  | cons m rest ih =>
    cases i with
    | zero => simp [handlesFrom]
    | succ i =>
      simp only [handlesFrom, List.getElem?_cons_succ, ih]
      congr 1
      funext m
      have h1 : base + 2 + 2 * i = base + 2 * (i + 1) := by omega
      rw [h1]

theorem handlesFrom_keys (ms : List Mapping) (base : Nat) :
    (handlesFrom base ms).map Prod.fst = ms.map Mapping.Forwarder := by
  induction ms generalizing base with
  | nil => rfl
  | cons m rest ih => simp [handlesFrom, ih]

theorem tasksFrom_getElem? (ms : List Mapping) (base i : Nat) :
    (tasksFrom base ms)[i]? =
      (ms[i]?).map (fun m =>
        { consumer := m.Consumer, forwarder := m.Forwarder,
          check := base + 2 * i, stop := base + 2 * i + 1 }) := by
  induction ms generalizing base i with
  | nil => simp [tasksFrom]
  | cons m rest ih =>
    cases i with
    | zero => simp [tasksFrom]
    | succ i =>
      simp only [tasksFrom, List.getElem?_cons_succ, ih]
      congr 1
      funext m
      have h1 : base + 2 + 2 * i = base + 2 * (i + 1) := by omega
      rw [h1]

theorem tasksFrom_length (ms : List Mapping) (base : Nat) :
    (tasksFrom base ms).length = ms.length := by
  induction ms generalizing base with
  | nil => rfl
  | cons m rest ih => simp [tasksFrom, ih]

theorem Start_consumers (c : Client) (w : World) :
    (c.Start w).2.1.consumers = some (keepLast (handlesFrom w.chans.length c.mappings)) ∧
    (c.Start w).2.1.mappings = c.mappings ∧ (c.Start w).1 = none := by
  simp [Client.Start, startLoop_fst, foldl_mapInsert]

theorem reach_trans {env : Env} {a b c : World} (h1 : Reach env a b) (h2 : Reach env b c) :
    Reach env a c := by
  induction h2 with
  | refl => exact h1
  | yield _ ih => exact Reach.yield ih
  | send _ hs ih => exact Reach.send ih hs
  | log msg _ ih => exact Reach.log msg ih

/-! ## What scheduling points and sends leave alone -/

theorem taskStep_frame (w : World) (op : TaskOp) :
    (taskStep w op).tasks = w.tasks ∧ (taskStep w op).sent = w.sent ∧
    (taskStep w op).chans.length = w.chans.length := by
  cases op with
  | send ch v =>
    simp only [taskStep]
    cases w.chans[ch]? with
    | none => simp
    | some c =>
      simp only
      split <;> simp
  | recv ch =>
    simp only [taskStep]
    cases w.chans[ch]? with
    | none => simp
    | some c => simp

theorem foldl_taskStep_frame (ops : List TaskOp) (w : World) :
    (ops.foldl taskStep w).tasks = w.tasks ∧ (ops.foldl taskStep w).sent = w.sent ∧
    (ops.foldl taskStep w).chans.length = w.chans.length := by
  induction ops generalizing w with
  | nil => simp
  | cons op rest ih =>
    rcases taskStep_frame w op with ⟨h1, h2, h3⟩
    rcases ih (taskStep w op) with ⟨k1, k2, k3⟩
    simp only [List.foldl_cons]
    exact ⟨k1.trans h1, k2.trans h2, k3.trans h3⟩

theorem yield_frame (env : Env) (w : World) :
    (yield env w).tasks = w.tasks ∧ (yield env w).sent = w.sent ∧
    (yield env w).chans.length = w.chans.length := by
  simpa [yield] using foldl_taskStep_frame (env.acts w.tick) w

theorem chanSend_frame {env : Env} {w w1 : World} {ch : ChanId} {v : Bool}
    (hs : chanSend env w ch v = some w1) :
    w1.tasks = w.tasks ∧ w1.sent = w.sent ++ [(ch, v)] ∧
    w1.chans.length = w.chans.length := by
  unfold chanSend at hs
  cases hc : w.chans[ch]? with
  | none => simp [hc] at hs
  | some c =>
    simp only [hc] at hs
    split at hs
    · cases hs
      simp
    · split at hs
      · cases hs
        simp
      · cases hs

/-! ## The loop of `Check` on channels of capacity 0 -/

theorem foldl_appendResponse_some (a l : List response) :
    l.foldl appendResponse { Consumers := some a } = { Consumers := some (a ++ l) } := by
  induction l generalizing a with
  | nil => simp
  | cons r rest ih => simp [appendResponse, ih]

theorem verdicts_cons (r : response) (l : List response) :
    verdicts (r :: l) = { Consumers := some (r :: l) } := by
  simp [verdicts, appendResponse, foldl_appendResponse_some]

theorem checkEntry_unbuf (env : Env) (k : String) (consumer : consumerChannel) (stopped : Nat)
    (resp : checkResponse) (w : World) (h : Unbuf w consumer.check) :
    checkEntry env consumer stopped resp w =
      match chanSend env (yield env w) consumer.check true with
      | none => .blocked (yield env w)
      | some w2 =>
        .done (stopped, appendResponse resp (healthyVerdict (k, consumer)))
          (yield env (yield env w2)) := by
  have h1 : Unbuf (yield env w) consumer.check := yield_unbuf env w _ h
  unfold checkEntry
  simp only [chanLen_unbuf h1, gt_iff_lt, Nat.lt_irrefl, if_false]
  cases hs : chanSend env (yield env w) consumer.check true with
  | none => rfl
  | some w2 =>
    have h2 : Unbuf w2 consumer.check := chanSend_unbuf hs _ h1
    have h3 : Unbuf (yield env w2) consumer.check := yield_unbuf env w2 _ h2
    have h4 : Unbuf (yield env (yield env w2)) consumer.check := yield_unbuf env _ _ h3
    simp [chanLen_unbuf h3, chanLen_unbuf h4, healthyVerdict]

theorem checkLoop_done (env : Env) (l : Registry) (stopped : Nat) (resp : checkResponse)
    (w : World) (h : RegUnbuf w l) (s1 : Nat) (r1 : checkResponse) (w1 : World)
    (hrun : checkLoop env l stopped resp w = .done (s1, r1) w1) :
    s1 = stopped ∧ r1 = (l.map healthyVerdict).foldl appendResponse resp ∧ Reach env w w1 := by
  induction l generalizing stopped resp w with
  | nil =>
    simp only [checkLoop, Run.done.injEq, Prod.mk.injEq] at hrun
    rcases hrun with ⟨⟨rfl, rfl⟩, rfl⟩
    exact ⟨rfl, rfl, Reach.refl _⟩
  | cons e rest ih =>
    rcases e with ⟨k, consumer⟩
    have hc : Unbuf w consumer.check := h (k, consumer) (List.mem_cons_self _ _)
    simp only [checkLoop, checkEntry_unbuf env k consumer stopped resp w hc] at hrun
    cases hs : chanSend env (yield env w) consumer.check true with
    | none => simp [hs] at hrun
    | some w2 =>
      simp only [hs] at hrun
      have hreach : Reach env w (yield env (yield env w2)) :=
        Reach.yield (Reach.yield (Reach.send (Reach.yield (Reach.refl w)) hs))
      have hrest : RegUnbuf (yield env (yield env w2)) rest := fun x hx =>
        reach_unbuf hreach _ (h x (List.mem_cons_of_mem _ hx))
      rcases ih _ _ _ hrest hrun with ⟨e1, e2, e3⟩
      refine ⟨e1, ?_, ?_⟩
      · simpa using e2
      · exact reach_trans hreach e3

theorem checkLoop_responsive (env : Env) (l : Registry) (stopped : Nat) (resp : checkResponse)
    (w : World) (h : RegUnbuf w l)
    (hrecv : ∀ t, ∀ e ∈ l, env.receives t e.2.check = true) :
    ∃ w1, checkLoop env l stopped resp w
      = .done (stopped, (l.map healthyVerdict).foldl appendResponse resp) w1 := by
  induction l generalizing stopped resp w with
  | nil => exact ⟨w, rfl⟩
  | cons e rest ih =>
    rcases e with ⟨k, consumer⟩
    have hc : Unbuf w consumer.check := h (k, consumer) (List.mem_cons_self _ _)
    have h1 : Unbuf (yield env w) consumer.check := yield_unbuf env w _ hc
    have hr : env.receives (yield env w).tick consumer.check = true :=
      hrecv _ (k, consumer) (List.mem_cons_self _ _)
    simp only [checkLoop, checkEntry_unbuf env k consumer stopped resp w hc,
      chanSend_of_unbuf env true h1, hr, if_true]
    have hs := chanSend_of_unbuf env true h1
    rw [hr, if_pos rfl] at hs
    have hreach : Reach env w (yield env (yield env _)) :=
      Reach.yield (Reach.yield (Reach.send (Reach.yield (Reach.refl w)) hs))
    have hrest : RegUnbuf (yield env (yield env _)) rest := fun x hx =>
      reach_unbuf hreach _ (h x (List.mem_cons_of_mem _ hx))
    rcases ih stopped (appendResponse resp (healthyVerdict (k, consumer))) _ hrest
      (fun t x hx => hrecv t x (List.mem_cons_of_mem _ hx)) with ⟨w1, hw1⟩
    exact ⟨w1, by simpa using hw1⟩

/-! ## The loop of `stop` -/

theorem stopLoop_done (env : Env) (l : Registry) (w w1 : World)
    (hrun : stopLoop env l w = .done () w1) :
    w1.sent = w.sent ++ stopSignals l ∧ w1.tasks = w.tasks ∧
    w1.chans.length = w.chans.length ∧ Reach env w w1 := by
  induction l generalizing w with
  | nil =>
    simp only [stopLoop, Run.done.injEq, true_and] at hrun
    subst hrun
    simp [stopSignals, Reach.refl]
  | cons e rest ih =>
    rcases e with ⟨k, consumer⟩
    simp only [stopLoop] at hrun
    cases hs : chanSend env (yield env w) consumer.stop true with
    | none => simp [hs] at hrun
    | some w2 =>
      simp only [hs] at hrun
      rcases ih _ hrun with ⟨e1, e2, e3, e4⟩
      rcases chanSend_frame hs with ⟨f1, f2, f3⟩
      rcases yield_frame env w with ⟨g1, g2, g3⟩
      refine ⟨?_, ?_, ?_, ?_⟩
      · rw [e1, f2, g2]
        simp [stopSignals]
      · rw [e2, f1, g1]
      · rw [e3, f3, g3]
      · exact reach_trans (Reach.send (Reach.yield (Reach.refl w)) hs) e4

theorem stopLoop_blocked (env : Env) (l : Registry) (w w1 : World)
    (hrun : stopLoop env l w = .blocked w1) :
    (∃ l1 e l2, l = l1 ++ e :: l2 ∧ w1.sent = w.sent ++ stopSignals l1) ∧
    w1.tasks = w.tasks ∧ w1.chans.length = w.chans.length := by
  induction l generalizing w with
  | nil => simp [stopLoop] at hrun
  | cons e rest ih =>
    rcases e with ⟨k, consumer⟩
    simp only [stopLoop] at hrun
    rcases yield_frame env w with ⟨g1, g2, g3⟩
    cases hs : chanSend env (yield env w) consumer.stop true with
    | none =>
      simp only [hs, Run.blocked.injEq] at hrun
      subst hrun
      exact ⟨⟨[], (k, consumer), rest, rfl, by simp [stopSignals, g2]⟩, g1, g3⟩
    | some w2 =>
      simp only [hs] at hrun
      rcases ih _ hrun with ⟨⟨l1, e, l2, hl, hsent⟩, e2, e3⟩
      rcases chanSend_frame hs with ⟨f1, f2, f3⟩
      refine ⟨⟨(k, consumer) :: l1, e, l2, by simp [hl], ?_⟩, ?_, ?_⟩
      · rw [hsent, f2, g2]
        simp [stopSignals]
      · rw [e2, f1, g1]
      · rw [e3, f3, g3]

theorem stopLoop_responsive (env : Env) (l : Registry) (w : World)
    (h : ∀ e ∈ l, Unbuf w e.2.stop)
    (hrecv : ∀ t, ∀ e ∈ l, env.receives t e.2.stop = true) :
    ∃ w1, stopLoop env l w = .done () w1 := by
  induction l generalizing w with
  | nil => exact ⟨w, rfl⟩
  | cons e rest ih =>
    rcases e with ⟨k, consumer⟩
    have hc : Unbuf w consumer.stop := h (k, consumer) (List.mem_cons_self _ _)
    have h1 : Unbuf (yield env w) consumer.stop := yield_unbuf env w _ hc
    have hr : env.receives (yield env w).tick consumer.stop = true :=
      hrecv _ (k, consumer) (List.mem_cons_self _ _)
    have hs := chanSend_of_unbuf env true h1
    rw [hr, if_pos rfl] at hs
    simp only [stopLoop, hs]
    apply ih
    · intro x hx
      exact chanSend_unbuf hs _ (yield_unbuf env w _ (h x (List.mem_cons_of_mem _ hx)))
    · intro t x hx
      exact hrecv t x (List.mem_cons_of_mem _ hx)

/-! ## Channels of a registry built by `Start` -/

theorem startLoop_unbuf (ms : List Mapping) (reg : Registry) (w : World) (j : Nat)
    (hj : j < 2 * ms.length) : Unbuf (startLoop ms reg w).2 (w.chans.length + j) := by
  unfold Unbuf
  rw [startLoop_chans, List.getElem?_append_right (Nat.le_add_right _ _)]
  simp [List.getElem?_replicate, hj]

theorem keepLast_handles_mem (ms : List Mapping) (base : Nat) (e : String × consumerChannel) :
    e ∈ keepLast (handlesFrom base ms) ↔
      ∃ (i : Nat) (m : Mapping), ms[i]? = some m ∧ m.Forwarder = e.1 ∧
        e.2 = { name := e.1, check := base + 2 * i, stop := base + 2 * i + 1 } ∧
        ∀ (j : Nat) (m2 : Mapping), i < j → ms[j]? = some m2 → m2.Forwarder ≠ e.1 := by
  rw [keepLast_mem]
  constructor
  · rintro ⟨i, hi, hlast⟩
    rw [handlesFrom_getElem?] at hi
    cases hm : ms[i]? with
    | none => simp [hm] at hi
    | some m =>
      simp only [hm, Option.map_some', Option.some.injEq] at hi
      subst hi
      refine ⟨i, m, hm, rfl, rfl, ?_⟩
      intro j m2 hij hj
      exact hlast j _ hij (by rw [handlesFrom_getElem?, hj]; rfl)
  · rintro ⟨i, m, hm, hk, he, hlast⟩
    refine ⟨i, ?_, ?_⟩
    · rw [handlesFrom_getElem?, hm]
      simp only [Option.map_some', Option.some.injEq]
      rcases e with ⟨k, h⟩
      simp only at hk he
      subst hk
      rw [he]
    · intro j x hij hj
      rw [handlesFrom_getElem?] at hj
      cases hm2 : ms[j]? with
      | none => simp [hm2] at hj
      | some m2 =>
        simp only [hm2, Option.map_some', Option.some.injEq] at hj
        subst hj
        exact hlast j m2 hij hm2

theorem Start_channels (c : Client) (w : World) (e : String × consumerChannel)
    (he : e ∈ mapEntries (c.Start w).2.1.consumers) :
    ∃ i, i < c.mappings.length ∧ e.2.name = e.1 ∧ e.2.check = w.chans.length + 2 * i ∧
      e.2.stop = w.chans.length + 2 * i + 1 ∧
      Unbuf (c.Start w).2.2 e.2.check ∧ Unbuf (c.Start w).2.2 e.2.stop := by
  rw [(Start_consumers c w).1] at he
  simp only [mapEntries, Option.getD_some] at he
  rcases (keepLast_handles_mem _ _ e).1 he with ⟨i, m, hm, _, h2, _⟩
  have hi : i < c.mappings.length := by
    rcases List.getElem?_eq_some_iff.1 hm with ⟨hl, _⟩
    exact hl
  have hj0 : 2 * i < 2 * c.mappings.length := by omega
  have hj1 : 2 * i + 1 < 2 * c.mappings.length := by omega
  refine ⟨i, hi, by rw [h2], by rw [h2], by rw [h2], ?_, ?_⟩
  · rw [h2]
    exact startLoop_unbuf c.mappings [] w (2 * i) hj0
  · rw [h2]
    exact startLoop_unbuf c.mappings [] w (2 * i + 1) hj1

theorem Start_registered (c : Client) (w : World)
    (hnames : (c.mappings.map Mapping.Forwarder).Nodup) :
    Registered c.mappings (c.Start w).2.1.consumers := by
  refine ⟨handlesFrom w.chans.length c.mappings, ?_, ?_, ?_, ?_, ?_⟩
  · rw [(Start_consumers c w).1, keepLast_of_nodup]
    rw [handlesFrom_keys]
    exact hnames
  · have := congrArg List.length (handlesFrom_keys c.mappings w.chans.length)
    simpa using this
  · intro k
    rw [handlesFrom_keys]
  · rw [handlesFrom_keys]
    exact hnames
  · intro k h hmem
    rcases List.getElem?_of_mem hmem with ⟨i, hi⟩
    rw [handlesFrom_getElem?] at hi
    cases hm : c.mappings[i]? with
    | none => simp [hm] at hi
    | some m =>
      simp only [hm, Option.map_some', Option.some.injEq, Prod.mk.injEq] at hi
      rcases hi with ⟨rfl, rfl⟩
      rfl

theorem Restart_done_inv (c : Client) (env : Env) (w : World) (rw : ResponseWriter)
    (r : Request) (c1 : Client) (rw1 : ResponseWriter) (w1 : World)
    (hrun : c.Restart env w rw r = .done (c1, rw1) w1) :
    ∃ w0, c.stop env w = .done () w0 ∧ c1 = (c.Start w0).2.1 ∧ w1 = (c.Start w0).2.2 ∧
      rw1 = successResponse rw := by
  unfold Client.Restart at hrun
  cases hs : c.stop env w with
  | blocked w0 => simp [hs] at hrun
  | done u w0 =>
    simp only [hs] at hrun
    simp only [Client.Start, restartReply, Run.done.injEq, Prod.mk.injEq] at hrun
    rcases hrun with ⟨⟨rfl, rfl⟩, rfl⟩
    exact ⟨w0, rfl, rfl, rfl, rfl⟩

theorem Restart_blocked_inv (c : Client) (env : Env) (w : World) (rw : ResponseWriter)
    (r : Request) (w1 : World) (hrun : c.Restart env w rw r = .blocked w1) :
    c.stop env w = .blocked w1 := by
  unfold Client.Restart at hrun
  cases hs : c.stop env w with
  | blocked w0 =>
    simp only [hs, Run.blocked.injEq] at hrun
    rw [hrun]
  | done u w0 => simp [hs] at hrun

theorem Restart_responsive (c : Client) (env : Env) (w : World) (rw : ResponseWriter)
    (r : Request) (h : ∀ e ∈ mapEntries c.consumers, Unbuf w e.2.stop)
    (hrecv : ∀ t, ∀ e ∈ mapEntries c.consumers, env.receives t e.2.stop = true) :
    ∃ c1 rw1 w1, c.Restart env w rw r = .done (c1, rw1) w1 := by
  have hperm := env.order_perm w.tick (mapEntries c.consumers)
  rcases stopLoop_responsive env (env.order w.tick (mapEntries c.consumers)) w
    (fun e he => h e (hperm.subset he)) (fun t e he => hrecv t e (hperm.subset he)) with ⟨w0, hw0⟩
  refine ⟨(c.Start w0).2.1, successResponse rw, (c.Start w0).2.2, ?_⟩
  simp [Client.Restart, Client.stop, hw0, Client.Start, restartReply]

/-! ## Claims about `Start` -/

/-- C1: for mappings with pairwise distinct Forwarder names and any prior state of the
client, after `Start` the registry has exactly one entry per mapping, its keys are the
Forwarder names and every handle carries its key as its name; the same holds after a
`Restart` that returns, and `Restart` does return when every registered worker takes its
stop signal. -/
theorem Start_registry_C1 (c : Client) (w : World)
    (hnames : (c.mappings.map Mapping.Forwarder).Nodup) :
    Registered c.mappings (c.Start w).2.1.consumers ∧
    (∀ env rw r c1 rw1 w1, c.Restart env w rw r = .done (c1, rw1) w1 →
      Registered c.mappings c1.consumers) ∧
    (∀ env rw r, (∀ e ∈ mapEntries c.consumers, Unbuf w e.2.stop) →
      (∀ t, ∀ e ∈ mapEntries c.consumers, env.receives t e.2.stop = true) →
      ∃ c1 rw1 w1, c.Restart env w rw r = .done (c1, rw1) w1 ∧
        Registered c.mappings c1.consumers) := by
  refine ⟨Start_registered c w hnames, ?_, ?_⟩
  · intro env rw r c1 rw1 w1 hrun
    rcases Restart_done_inv c env w rw r c1 rw1 w1 hrun with ⟨w0, _, hc1, _, _⟩
    rw [hc1]
    exact Start_registered c w0 hnames
  · intro env rw r h hrecv
    rcases Restart_responsive c env w rw r h hrecv with ⟨c1, rw1, w1, hrun⟩
    refine ⟨c1, rw1, w1, hrun, ?_⟩
    rcases Restart_done_inv c env w rw r c1 rw1 w1 hrun with ⟨w0, _, hc1, _, _⟩
    rw [hc1]
    exact Start_registered c w0 hnames

/-- Witness of C1: the two mappings of the specification scenario, started from nothing. -/
theorem Start_registry_C1_witness :
    ((New twoMappings).mappings.map Mapping.Forwarder).Nodup ∧
    Registered (New twoMappings).mappings ((New twoMappings).Start World.init).2.1.consumers :=
  ⟨by decide, (Start_registry_C1 (New twoMappings) World.init (by decide)).1⟩

/-- C10: `Start` launches one task per mapping, with its own pair of channels, while the
registry holds one entry per distinct Forwarder name, namely the handle made for the last
mapping with that name; the stop channel of an earlier mapping with the same name is in no
registry entry and a later `stop` sends nothing on it. -/
theorem Start_duplicate_names_C10 (c : Client) (w : World) :
    (c.Start w).2.2.tasks.length = w.tasks.length + c.mappings.length ∧
    (∀ (i : Nat) (m : Mapping), c.mappings[i]? = some m →
      (c.Start w).2.2.tasks[w.tasks.length + i]? = some
        { consumer := m.Consumer, forwarder := m.Forwarder,
          check := w.chans.length + 2 * i, stop := w.chans.length + 2 * i + 1 }) ∧
    ∃ reg, (c.Start w).2.1.consumers = some reg ∧
      reg.map Prod.fst = (c.mappings.map Mapping.Forwarder).dedup ∧
      (∀ e, e ∈ reg ↔ ∃ (i : Nat) (m : Mapping), c.mappings[i]? = some m ∧
          m.Forwarder = e.1 ∧
          e.2 = { name := e.1, check := w.chans.length + 2 * i,
                  stop := w.chans.length + 2 * i + 1 } ∧
          ∀ (j : Nat) (m2 : Mapping), i < j → c.mappings[j]? = some m2 →
            m2.Forwarder ≠ e.1) ∧
      (∀ (i j : Nat) (m m2 : Mapping), i < j → c.mappings[i]? = some m →
          c.mappings[j]? = some m2 → m2.Forwarder = m.Forwarder →
          (∀ e ∈ reg, e.2.stop ≠ w.chans.length + 2 * i + 1) ∧
          ∀ (env : Env) (w2 w3 : World),
            ((c.Start w).2.1.stop env w2 = .done () w3 ∨
              (c.Start w).2.1.stop env w2 = .blocked w3) →
            ∃ extra, w3.sent = w2.sent ++ extra ∧
              ∀ v, (w.chans.length + 2 * i + 1, v) ∉ extra) := by
  have htasks : (c.Start w).2.2.tasks = w.tasks ++ tasksFrom w.chans.length c.mappings := by
    simp [Client.Start, startLoop_tasks]
  refine ⟨?_, ?_, keepLast (handlesFrom w.chans.length c.mappings), (Start_consumers c w).1,
    ?_, fun e => keepLast_handles_mem c.mappings w.chans.length e, ?_⟩
  · rw [htasks, List.length_append, tasksFrom_length]
  · intro i m hm
    rw [htasks, List.getElem?_append_right (Nat.le_add_right _ _), Nat.add_sub_cancel_left,
      tasksFrom_getElem?, hm]
    rfl
  · rw [keepLast_keys, handlesFrom_keys]
  · intro i j m m2 hij hm hm2 hsame
    have hstop : ∀ e ∈ keepLast (handlesFrom w.chans.length c.mappings),
        e.2.stop ≠ w.chans.length + 2 * i + 1 := by
      intro e he heq
      rcases (keepLast_handles_mem _ _ e).1 he with ⟨i1, m1, hm1, hk, h2, hlast⟩
      rw [h2] at heq
      have heq2 : (w.chans.length + 2 * i1 + 1 : Nat) = w.chans.length + 2 * i + 1 := heq
      have hii : i1 = i := by omega
      subst hii
      rw [hm] at hm1
      cases hm1
      exact hlast j m2 hij hm2 (hsame.trans hk)
    refine ⟨hstop, ?_⟩
    intro env w2 w3 hrun
    have hperm := env.order_perm w2.tick (keepLast (handlesFrom w.chans.length c.mappings))
    have hnot : ∀ l : Registry, (∀ e ∈ l, e ∈ keepLast (handlesFrom w.chans.length c.mappings)) →
        ∀ v, (w.chans.length + 2 * i + 1, v) ∉ stopSignals l := by
      intro l hl v hv
      simp only [stopSignals, List.mem_map, Prod.mk.injEq] at hv
      rcases hv with ⟨e, he, h1, _⟩
      exact hstop e (hl e he) h1
    simp only [Client.stop, (Start_consumers c w).1, mapEntries, Option.getD_some] at hrun
    rcases hrun with hrun | hrun
    · rcases stopLoop_done env _ w2 w3 hrun with ⟨h1, _⟩
      exact ⟨_, h1, hnot _ (fun e he => hperm.subset he)⟩
    · rcases stopLoop_blocked env _ w2 w3 hrun with ⟨⟨l1, e, l2, hl, h1⟩, _⟩
      refine ⟨_, h1, hnot l1 ?_⟩
      intro x hx
      apply hperm.subset
      rw [hl]
      exact List.mem_append_left _ hx

/-- Witness of C10: two mappings with the same Forwarder name give two tasks and one registry
entry, the handle of the second mapping. -/
theorem Start_duplicate_names_C10_witness :
    ((New sameName).Start World.init).2.2.tasks.length = 0 + 2 ∧
    ((New sameName).Start World.init).2.1.consumers
      = some [("forwarderA", { name := "forwarderA", check := 2, stop := 3 })] :=
  ⟨(Start_duplicate_names_C10 (New sameName) World.init).1, by decide⟩

/-- C6 as amended: a `Restart` that gets past `stop` has sent exactly one stop signal on the
stop channel of every handle of the registry, in visiting order, and nothing else, all
before `Start` ran; a `Restart` that parks has signalled only the handles visited before
the one whose worker does not take the signal, and `Start` has not run; `Restart` gets
past `stop` when every registered worker takes its signal. -/
theorem Restart_stop_signals_C6 (c : Client) (env : Env) (w : World) (rw : ResponseWriter)
    (r : Request) :
    (env.order w.tick (mapEntries c.consumers)).Perm (mapEntries c.consumers) ∧
    (∀ c1 rw1 w1, c.Restart env w rw r = .done (c1, rw1) w1 →
      ∃ w0, c.stop env w = .done () w0 ∧
        w0.sent = w.sent ++ stopSignals (env.order w.tick (mapEntries c.consumers)) ∧
        w0.tasks = w.tasks ∧ w0.chans.length = w.chans.length ∧
        c1 = (c.Start w0).2.1 ∧ w1 = (c.Start w0).2.2 ∧ w1.sent = w0.sent) ∧
    (∀ w1, c.Restart env w rw r = .blocked w1 →
      (∃ l1 e l2, env.order w.tick (mapEntries c.consumers) = l1 ++ e :: l2 ∧
        w1.sent = w.sent ++ stopSignals l1) ∧
      w1.tasks = w.tasks ∧ w1.chans.length = w.chans.length) ∧
    ((∀ e ∈ mapEntries c.consumers, Unbuf w e.2.stop) →
      (∀ t, ∀ e ∈ mapEntries c.consumers, env.receives t e.2.stop = true) →
      ∃ c1 rw1 w1, c.Restart env w rw r = .done (c1, rw1) w1) ∧
    (∀ (c0 : Client) (w0 : World), c.consumers = (c0.Start w0).2.1.consumers →
      ∀ e ∈ mapEntries c.consumers, ∀ x ∈ mapEntries c.consumers, e.2.stop ≠ x.2.check) := by
  refine ⟨env.order_perm _ _, ?_, ?_, Restart_responsive c env w rw r, ?_⟩
  · intro c1 rw1 w1 hrun
    rcases Restart_done_inv c env w rw r c1 rw1 w1 hrun with ⟨w0, hstop, hc1, hw1, _⟩
    rcases stopLoop_done env _ w w0 hstop with ⟨h1, h2, h3, _⟩
    refine ⟨w0, hstop, h1, h2, h3, hc1, hw1, ?_⟩
    rw [hw1]
    simp [Client.Start, (startLoop_sent c.mappings [] w0).1]
  · intro w1 hrun
    exact stopLoop_blocked env _ w w1 (Restart_blocked_inv c env w rw r w1 hrun)
  · intro c0 w0 hc e he x hx
    rw [hc] at he hx
    rcases Start_channels c0 w0 e he with ⟨i, _, _, _, h1, _⟩
    rcases Start_channels c0 w0 x hx with ⟨j, _, _, h2, _⟩
    intro hne
    rw [h1, h2] at hne
    have hne2 : (w0.chans.length + 2 * i + 1 : Nat) = w0.chans.length + 2 * j := hne
    omega

/-- Witness of C6: the started scenario with workers that take every signal. -/
theorem Restart_stop_signals_C6_witness :
    ∃ c1 rw1 w1, startedClient.Restart Env.responsive startedWorld freshWriter plainRequest
      = .done (c1, rw1) w1 :=
  (Restart_stop_signals_C6 startedClient Env.responsive startedWorld freshWriter
    plainRequest).2.2.2.1 (by decide) (fun _ _ _ => rfl)

/-- C6 as stated fails: the registry holds the handle of forwarderB with stop channel 3 and
its worker is ready to take a signal, but the worker of forwarderA does not take its signal,
so `Restart` parks having sent nothing on channel 3 and without running `Start`. -/
theorem Restart_stop_signals_C6_counterexample :
    ("forwarderB", ({ name := "forwarderB", check := 2, stop := 3 } : consumerChannel))
      ∈ mapEntries startedClient.consumers ∧
    ∃ w1, startedClient.Restart Env.secondOnly startedWorld freshWriter plainRequest
        = .blocked w1 ∧
      w1.sent = [] ∧ w1.chans.length = 4 ∧ w1.tasks.length = 2 := by
  refine ⟨by decide, _, rfl, ?_, ?_, ?_⟩ <;> rfl

/-! ## Claims about `Restart` -/

theorem restartReply_failure (e : String) (w : World) :
    (restartReply (some e) freshWriter w).1.status = some 500 ∧
    (restartReply (some e) freshWriter w).1.body = "" :=
  ⟨rfl, rfl⟩

/-- C7: `Start` reports no failure for any client and world. So every run of `Restart` that
gets past `stop` answers 200 with the success body and never 500; the reply 500 with the
body of an unhealthy response belongs to runs in which `Start` reports failure, and there
are none; `Restart` completes when every registered worker takes its stop signal. -/
theorem Restart_response_C7 (c : Client) (env : Env) (w : World) (r : Request) :
    (∀ w0, (c.Start w0).1 = none) ∧
    (∀ c1 rw1 w1, c.Restart env w freshWriter r = .done (c1, rw1) w1 →
      rw1.status = some 200 ∧
      rw1.body = "\x7b\"healthy\":true,\"message\":\"success\"\x7d" ∧
      rw1.status ≠ some 500) ∧
    (∀ w0 e c1 rw1 w1, c.stop env w = .done () w0 → (c.Start w0).1 = some e →
      c.Restart env w freshWriter r = .done (c1, rw1) w1 →
      rw1.status = some 500 ∧
      rw1.body = "\x7b\"healthy\":false,\"message\":\"\"\x7d") ∧
    ((∀ e ∈ mapEntries c.consumers, Unbuf w e.2.stop) →
      (∀ t, ∀ e ∈ mapEntries c.consumers, env.receives t e.2.stop = true) →
      ∃ c1 rw1 w1, c.Restart env w freshWriter r = .done (c1, rw1) w1 ∧
        rw1.status = some 200 ∧
        rw1.body = "\x7b\"healthy\":true,\"message\":\"success\"\x7d") := by
  have hdone : ∀ c1 rw1 w1, c.Restart env w freshWriter r = .done (c1, rw1) w1 →
      rw1.status = some 200 ∧
      rw1.body = "\x7b\"healthy\":true,\"message\":\"success\"\x7d" ∧
      rw1.status ≠ some 500 := by
    intro c1 rw1 w1 hrun
    rcases Restart_done_inv c env w freshWriter r c1 rw1 w1 hrun with ⟨_, _, _, _, hrw⟩
    rw [hrw]
    exact ⟨by decide, by decide, by decide⟩
  refine ⟨fun _ => rfl, hdone, ?_, ?_⟩
  · intro w0 e c1 rw1 w1 _ hfail _
    have hnone : (c.Start w0).1 = none := rfl
    rw [hnone] at hfail
    cases hfail
  · intro h hrecv
    rcases Restart_responsive c env w freshWriter r h hrecv with ⟨c1, rw1, w1, hrun⟩
    exact ⟨c1, rw1, w1, hrun, (hdone c1 rw1 w1 hrun).1, (hdone c1 rw1 w1 hrun).2.1⟩

/-- Witness of C7: the started scenario with workers that take every signal. -/
theorem Restart_response_C7_witness :
    ∃ c1 rw1 w1, startedClient.Restart Env.responsive startedWorld freshWriter plainRequest
        = .done (c1, rw1) w1 ∧
      rw1.status = some 200 ∧
      rw1.body = "\x7b\"healthy\":true,\"message\":\"success\"\x7d" :=
  (Restart_response_C7 startedClient Env.responsive startedWorld plainRequest).2.2.2
    (by decide) (fun _ _ _ => rfl)

/-! ## The Accept test and the replies of `Check` -/

theorem startsWith_iff (s p : List Char) : startsWith s p = true ↔ ∃ t, s = p ++ t := by
  induction p generalizing s with
  | nil =>
    cases s <;> simp [startsWith]
  | cons a p ih =>
    cases s with
    | nil => simp [startsWith]
    | cons c cs =>
      simp only [startsWith, Bool.and_eq_true, beq_iff_eq, ih, List.cons_append,
        List.cons.injEq]
      constructor
      · rintro ⟨rfl, t, rfl⟩
        exact ⟨t, rfl, rfl⟩
      · rintro ⟨t, rfl, rfl⟩
        exact ⟨rfl, t, rfl⟩

theorem containsChars_iff (s sub : List Char) :
    containsChars s sub = true ↔ ∃ a b, s = a ++ sub ++ b := by
  induction s with
  | nil =>
    cases sub with
    | nil => simp [containsChars]
    | cons x xs => simp [containsChars]
  | cons c cs ih =>
    simp only [containsChars, Bool.or_eq_true, startsWith_iff, ih]
    constructor
    · rintro (⟨t, ht⟩ | ⟨a, b, hab⟩)
      · exact ⟨[], t, by simpa using ht⟩
      · exact ⟨c :: a, b, by simp [hab]⟩
    · rintro ⟨a, b, hab⟩
      cases a with
      | nil => exact Or.inl ⟨b, by simpa using hab⟩
      | cons x a =>
        simp only [List.cons_append, List.cons.injEq] at hab
        exact Or.inr ⟨a, b, hab.2⟩

theorem acceptRefused_iff (accept : String) :
    acceptRefused accept = true ↔
      accept ≠ "" ∧ (¬ ∃ a b, accept.data = a ++ jsonType.data ++ b) ∧
        ¬ ∃ a b, accept.data = a ++ acceptAll.data ++ b := by
  simp only [acceptRefused, stringsContains, Bool.and_eq_true, bne_iff_ne, ne_eq,
    Bool.not_eq_true', ← containsChars_iff, Bool.not_eq_true, and_assoc]

theorem notAcceptable_fresh :
    (notAcceptableResponse freshWriter).status = some 406 ∧
    (notAcceptableResponse freshWriter).body
      = "\x7b\"healthy\":false,\"message\":\"not supported response format\"\x7d" := by
  decide

theorem checkReply_fresh (stopped : Nat) (resp : checkResponse) :
    (0 < stopped → (checkReply freshWriter stopped resp).status = some 500 ∧
      (checkReply freshWriter stopped resp).body
        = "Number of failed consumers: " ++ Nat.repr stopped) ∧
    (stopped = 0 → (checkReply freshWriter stopped resp).status = some 200 ∧
      checkReply freshWriter stopped resp = checkSuccess freshWriter resp) := by
  constructor
  · intro h
    simp only [checkReply, gt_iff_lt, h, if_true]
    exact ⟨rfl, by simp [errorResponse, ResponseWriter.Write, ResponseWriter.WriteHeader,
      ResponseWriter.Set, freshWriter, failedMessage]⟩
  · intro h
    subst h
    simp only [checkReply, gt_iff_lt, Nat.lt_irrefl, if_false, and_true]
    rcases resp with ⟨_ | l⟩ <;> rfl

theorem Check_refused (c : Client) (env : Env) (w : World) (rw : ResponseWriter) (r : Request)
    (h : acceptRefused (headerGet r.Header acceptHeader) = true) :
    c.Check env w rw r = .done (notAcceptableResponse rw) (logLine w "Wrong Accept header") := by
  simp [Client.Check, h]

theorem Check_accepted (c : Client) (env : Env) (w : World) (rw : ResponseWriter) (r : Request)
    (h : acceptRefused (headerGet r.Header acceptHeader) = false) :
    c.Check env w rw r =
      match checkLoop env (env.order w.tick (mapEntries c.consumers)) 0
          { Consumers := none } w with
      | .blocked w1 => .blocked w1
      | .done (stopped, resp1) w1 => .done (checkReply rw stopped resp1) w1 := by
  simp [Client.Check, h]

theorem Check_accepted_status (c : Client) (env : Env) (w : World) (r : Request)
    (h : acceptRefused (headerGet r.Header acceptHeader) = false) (rw : ResponseWriter)
    (w1 : World) (hrun : c.Check env w freshWriter r = .done rw w1) :
    rw.status = some 200 ∨ rw.status = some 500 := by
  rw [Check_accepted c env w freshWriter r h] at hrun
  cases hl : checkLoop env (env.order w.tick (mapEntries c.consumers)) 0
      { Consumers := none } w with
  | blocked w2 => simp [hl] at hrun
  | done a w2 =>
    rcases a with ⟨stopped, resp1⟩
    simp only [hl, Run.done.injEq] at hrun
    rcases hrun with ⟨rfl, _⟩
    rcases Nat.eq_zero_or_pos stopped with h0 | hpos
    · exact Or.inl ((checkReply_fresh stopped resp1).2 h0).1
    · exact Or.inr ((checkReply_fresh stopped resp1).1 hpos).1

/-- C2: `Check` answers 406 exactly when the Accept value is non-empty and contains neither
`application/json` nor `*/*`; the body is then the JSON text of the not-supported response;
every other answer has status 200 or 500. `text/plain` is refused; a missing header, `*/*`
and `application/json` are not. -/
theorem Check_not_acceptable_C2 (c : Client) (env : Env) (w : World) (r : Request) :
    ((∃ rw w1, c.Check env w freshWriter r = .done rw w1 ∧ rw.status = some 406) ↔
      (headerGet r.Header acceptHeader ≠ "" ∧
        (¬ ∃ a b, (headerGet r.Header acceptHeader).data
            = a ++ "application/json".data ++ b) ∧
        ¬ ∃ a b, (headerGet r.Header acceptHeader).data = a ++ "*/*".data ++ b)) ∧
    (∀ rw w1, c.Check env w freshWriter r = .done rw w1 → rw.status = some 406 →
      rw.body = "\x7b\"healthy\":false,\"message\":\"not supported response format\"\x7d") ∧
    (∀ rw w1, c.Check env w freshWriter r = .done rw w1 →
      rw.status = some 406 ∨ rw.status = some 200 ∨ rw.status = some 500) ∧
    (∃ rw w1, c.Check env w freshWriter (acceptRequest "text/plain") = .done rw w1 ∧
      rw.status = some 406) ∧
    (∀ rw w1, (c.Check env w freshWriter plainRequest = .done rw w1 ∨
        c.Check env w freshWriter (acceptRequest "*/*") = .done rw w1 ∨
        c.Check env w freshWriter (acceptRequest "application/json") = .done rw w1) →
      rw.status = some 200 ∨ rw.status = some 500) := by
  have hcases : acceptRefused (headerGet r.Header acceptHeader) = true ∨
      acceptRefused (headerGet r.Header acceptHeader) = false := by
    cases acceptRefused (headerGet r.Header acceptHeader) <;> simp
  refine ⟨?_, ?_, ?_, ?_, ?_⟩
  · refine Iff.trans ?_ (acceptRefused_iff (headerGet r.Header acceptHeader))
    constructor
    · rintro ⟨rw, w1, hrun, hst⟩
      rcases hcases with h | h
      · exact h
      · rcases Check_accepted_status c env w r h rw w1 hrun with h2 | h2 <;>
          rw [h2] at hst <;> cases hst
    · intro h
      exact ⟨_, _, Check_refused c env w freshWriter r h, notAcceptable_fresh.1⟩
  · intro rw w1 hrun hst
    rcases hcases with h | h
    · rw [Check_refused c env w freshWriter r h] at hrun
      simp only [Run.done.injEq] at hrun
      rw [← hrun.1]
      exact notAcceptable_fresh.2
    · rcases Check_accepted_status c env w r h rw w1 hrun with h2 | h2 <;>
        rw [h2] at hst <;> cases hst
  · intro rw w1 hrun
    rcases hcases with h | h
    · rw [Check_refused c env w freshWriter r h] at hrun
      simp only [Run.done.injEq] at hrun
      rw [← hrun.1]
      exact Or.inl notAcceptable_fresh.1
    · exact Or.inr (Check_accepted_status c env w r h rw w1 hrun)
  · exact ⟨_, _, Check_refused c env w freshWriter (acceptRequest "text/plain") (by decide),
      notAcceptable_fresh.1⟩
  · rintro rw w1 (hrun | hrun | hrun)
    · exact Check_accepted_status c env w plainRequest (by decide) rw w1 hrun
    · exact Check_accepted_status c env w (acceptRequest "*/*") (by decide) rw w1 hrun
    · exact Check_accepted_status c env w (acceptRequest "application/json") (by decide)
        rw w1 hrun

/-! ## Claims about the verdicts of `Check` -/

theorem responseText_healthy (e : String × consumerChannel) :
    responseText (healthyVerdict e) = healthyText e.2.name := by
  simp [responseText, healthyVerdict, healthyText, jsonBool, String.append_assoc]

theorem checkSuccess_fresh_nil :
    (checkSuccess freshWriter { Consumers := none }).body = "\x7b\"consumers\":null\x7d" ∧
    (checkSuccess freshWriter { Consumers := none }).status = some 200 := by
  decide

theorem checkSuccess_fresh_some (l : List response) :
    (checkSuccess freshWriter { Consumers := some l }).body
      = "\x7b\"consumers\":[" ++ ",".intercalate (l.map responseText) ++ "]\x7d" ∧
    (checkSuccess freshWriter { Consumers := some l }).status = some 200 := by
  constructor
  · simp [checkSuccess, marshalCheckResponse, ResponseWriter.Write, ResponseWriter.WriteHeader,
      ResponseWriter.Set, freshWriter]
  · rfl

theorem Check_unbuf_done (c : Client) (env : Env) (w : World) (r : Request)
    (hunbuf : RegUnbuf w (mapEntries c.consumers))
    (haccept : acceptRefused (headerGet r.Header acceptHeader) = false)
    (rw : ResponseWriter) (w1 : World)
    (hrun : c.Check env w freshWriter r = .done rw w1) :
    checkLoop env (env.order w.tick (mapEntries c.consumers)) 0 { Consumers := none } w
      = .done (0, verdicts ((env.order w.tick (mapEntries c.consumers)).map healthyVerdict)) w1 ∧
    rw = checkSuccess freshWriter
      (verdicts ((env.order w.tick (mapEntries c.consumers)).map healthyVerdict)) := by
  have hperm := env.order_perm w.tick (mapEntries c.consumers)
  have hreg : RegUnbuf w (env.order w.tick (mapEntries c.consumers)) :=
    fun e he => hunbuf e (hperm.subset he)
  rw [Check_accepted c env w freshWriter r haccept] at hrun
  cases hl : checkLoop env (env.order w.tick (mapEntries c.consumers)) 0
      { Consumers := none } w with
  | blocked w2 => simp [hl] at hrun
  | done a w2 =>
    rcases a with ⟨stopped, resp1⟩
    simp only [hl, Run.done.injEq] at hrun
    rcases hrun with ⟨hrw, rfl⟩
    rcases checkLoop_done env _ 0 _ w hreg stopped resp1 w2 hl with ⟨h1, h2, _⟩
    subst h1
    subst h2
    refine ⟨rfl, ?_⟩
    rw [← hrw]
    exact ((checkReply_fresh 0 _).2 rfl).2

theorem Check_unbuf_responsive (c : Client) (env : Env) (w : World) (r : Request)
    (hunbuf : RegUnbuf w (mapEntries c.consumers))
    (hrecv : ∀ t, ∀ e ∈ mapEntries c.consumers, env.receives t e.2.check = true)
    (haccept : acceptRefused (headerGet r.Header acceptHeader) = false) :
    ∃ rw w1, c.Check env w freshWriter r = .done rw w1 := by
  have hperm := env.order_perm w.tick (mapEntries c.consumers)
  rcases checkLoop_responsive env (env.order w.tick (mapEntries c.consumers)) 0
    { Consumers := none } w (fun e he => hunbuf e (hperm.subset he))
    (fun t e he => hrecv t e (hperm.subset he)) with ⟨w1, hw1⟩
  exact ⟨_, w1, by rw [Check_accepted c env w freshWriter r haccept, hw1]⟩

theorem verdicts_healthy (l : Registry) :
    (l = [] → verdicts (l.map healthyVerdict) = { Consumers := none }) ∧
    (l ≠ [] → verdicts (l.map healthyVerdict) = { Consumers := some (l.map healthyVerdict) }) := by
  cases l with
  | nil => exact ⟨fun _ => rfl, fun h => absurd rfl h⟩
  | cons e rest =>
    refine ⟨fun h => (by cases h), fun _ => ?_⟩
    rw [List.map_cons, verdicts_cons]

theorem checkSuccess_healthy_body (l : Registry) :
    (checkSuccess freshWriter (verdicts (l.map healthyVerdict))).status = some 200 ∧
    (l = [] → (checkSuccess freshWriter (verdicts (l.map healthyVerdict))).body
      = "\x7b\"consumers\":null\x7d") ∧
    (l ≠ [] → (checkSuccess freshWriter (verdicts (l.map healthyVerdict))).body
      = "\x7b\"consumers\":[" ++ ",".intercalate (l.map (fun e => healthyText e.2.name))
          ++ "]\x7d") := by
  cases l with
  | nil => exact ⟨checkSuccess_fresh_nil.2, fun _ => checkSuccess_fresh_nil.1, fun h => absurd rfl h⟩
  | cons e rest =>
    refine ⟨?_, fun h => (by cases h), fun _ => ?_⟩
    · rw [List.map_cons, verdicts_cons]
      exact (checkSuccess_fresh_some _).2
    · rw [List.map_cons, verdicts_cons, (checkSuccess_fresh_some _).1]
      simp only [List.map_cons, List.map_map, responseText_healthy]
      congr

/-- C9: the check channels of a registry built by `Start` have capacity 0 and hold nothing
in every world the supervisor and the workers can reach, so a `Check` that passes the
Accept test and returns has counted no failed worker, answers 200 and never 500, and its
body lists one healthy verdict per registered worker, in visiting order (`null` in place of
the array when there is no worker); it does return when every worker takes its probe. -/
theorem Check_never_unhealthy_C9 (c : Client) (w w1 : World) (env : Env) (r : Request)
    (hreach : Reach env (c.Start w).2.2 w1)
    (haccept : acceptRefused (headerGet r.Header acceptHeader) = false) :
    (∀ e ∈ mapEntries (c.Start w).2.1.consumers,
      (∃ ch, w1.chans[e.2.check]? = some ch ∧ ch.cap = 0) ∧ chanLen w1 e.2.check = 0) ∧
    (env.order w1.tick (mapEntries (c.Start w).2.1.consumers)).Perm
      (mapEntries (c.Start w).2.1.consumers) ∧
    (∀ rw w2, (c.Start w).2.1.Check env w1 freshWriter r = .done rw w2 →
      checkLoop env (env.order w1.tick (mapEntries (c.Start w).2.1.consumers)) 0
          { Consumers := none } w1
        = .done (0, verdicts ((env.order w1.tick
            (mapEntries (c.Start w).2.1.consumers)).map healthyVerdict)) w2 ∧
      rw = checkSuccess freshWriter (verdicts ((env.order w1.tick
            (mapEntries (c.Start w).2.1.consumers)).map healthyVerdict)) ∧
      rw.status = some 200 ∧ rw.status ≠ some 500 ∧
      (env.order w1.tick (mapEntries (c.Start w).2.1.consumers) = [] →
        verdicts ((env.order w1.tick
            (mapEntries (c.Start w).2.1.consumers)).map healthyVerdict)
          = { Consumers := none } ∧
        rw.body = "\x7b\"consumers\":null\x7d") ∧
      (env.order w1.tick (mapEntries (c.Start w).2.1.consumers) ≠ [] →
        verdicts ((env.order w1.tick
            (mapEntries (c.Start w).2.1.consumers)).map healthyVerdict)
          = { Consumers := some ((env.order w1.tick
              (mapEntries (c.Start w).2.1.consumers)).map
                (fun e => { Healthy := true, Message := "Consumer Name: " ++ e.2.name })) } ∧
        rw.body = "\x7b\"consumers\":[" ++ ",".intercalate
          ((env.order w1.tick (mapEntries (c.Start w).2.1.consumers)).map
            (fun e => "\x7b\"healthy\":true,\"message\":"
              ++ jsonString ("Consumer Name: " ++ e.2.name) ++ "\x7d"))
          ++ "]\x7d")) ∧
    ((∀ t, ∀ e ∈ mapEntries (c.Start w).2.1.consumers, env.receives t e.2.check = true) →
      ∃ rw w2, (c.Start w).2.1.Check env w1 freshWriter r = .done rw w2) := by
  have hunbuf : RegUnbuf w1 (mapEntries (c.Start w).2.1.consumers) := by
    intro e he
    rcases Start_channels c w e he with ⟨_, _, _, _, _, h, _⟩
    exact reach_unbuf hreach _ h
  refine ⟨?_, env.order_perm _ _, ?_, ?_⟩
  · intro e he
    have h := hunbuf e he
    exact ⟨⟨_, h, rfl⟩, chanLen_unbuf h⟩
  · intro rw w2 hrun
    rcases Check_unbuf_done _ env w1 r hunbuf haccept rw w2 hrun with ⟨h1, h2⟩
    rcases checkSuccess_healthy_body
      (env.order w1.tick (mapEntries (c.Start w).2.1.consumers)) with ⟨b0, b1, b2⟩
    rcases verdicts_healthy
      (env.order w1.tick (mapEntries (c.Start w).2.1.consumers)) with ⟨v1, v2⟩
    have hst : rw.status = some 200 := by rw [h2]; exact b0
    refine ⟨h1, h2, hst, ?_, ?_, ?_⟩
    · rw [hst]
      decide
    · intro hnil
      exact ⟨v1 hnil, by rw [h2]; exact b1 hnil⟩
    · intro hne
      exact ⟨v2 hne, by rw [h2]; exact b2 hne⟩
  · intro hrecv
    exact Check_unbuf_responsive _ env w1 r hunbuf hrecv haccept

/-- Witness of C9: the started scenario, workers that take every probe, no Accept header. -/
theorem Check_never_unhealthy_C9_witness :
    ∃ rw w2, ((New twoMappings).Start World.init).2.1.Check Env.responsive
      ((New twoMappings).Start World.init).2.2 freshWriter plainRequest = .done rw w2 :=
  (Check_never_unhealthy_C9 (New twoMappings) World.init _ Env.responsive plainRequest
    (Reach.refl _) (by decide)).2.2.2 (fun _ _ _ => rfl)

/-- C4 as amended: when every check channel of the registry is as `makeConsumerChannel`
makes it and every worker takes its probe, `Check` answers 200; the body lists one healthy
verdict per registered worker, with the message `Consumer Name: ` and the worker name, in
an array when the registry has entries, and it is `null` in place of the array when the
registry has none. -/
theorem Check_all_healthy_C4 (c : Client) (env : Env) (w : World) (r : Request)
    (hunbuf : RegUnbuf w (mapEntries c.consumers))
    (hrecv : ∀ t, ∀ e ∈ mapEntries c.consumers, env.receives t e.2.check = true)
    (haccept : acceptRefused (headerGet r.Header acceptHeader) = false) :
    ∃ rw w1, c.Check env w freshWriter r = .done rw w1 ∧ rw.status = some 200 ∧
      (env.order w.tick (mapEntries c.consumers)).Perm (mapEntries c.consumers) ∧
      (env.order w.tick (mapEntries c.consumers)).length = (mapEntries c.consumers).length ∧
      (mapEntries c.consumers = [] → rw.body = "\x7b\"consumers\":null\x7d") ∧
      (mapEntries c.consumers ≠ [] →
        rw.body = "\x7b\"consumers\":[" ++ ",".intercalate
          ((env.order w.tick (mapEntries c.consumers)).map (fun e => healthyText e.2.name))
          ++ "]\x7d") := by
  have hperm := env.order_perm w.tick (mapEntries c.consumers)
  rcases Check_unbuf_responsive c env w r hunbuf hrecv haccept with ⟨rw, w1, hrun⟩
  rcases Check_unbuf_done c env w r hunbuf haccept rw w1 hrun with ⟨_, h2⟩
  refine ⟨rw, w1, hrun, ?_, hperm, hperm.length_eq, ?_, ?_⟩
  · rw [h2]
    cases hv : verdicts ((env.order w.tick (mapEntries c.consumers)).map healthyVerdict) with
    | mk cons =>
      cases cons with
      | none => exact checkSuccess_fresh_nil.2
      | some l => exact (checkSuccess_fresh_some l).2
  · intro hnil
    have hord : env.order w.tick (mapEntries c.consumers) = [] := by
      apply List.length_eq_zero.1
      rw [hperm.length_eq, hnil]
      rfl
    rw [h2, hord]
    exact checkSuccess_fresh_nil.1
  · intro hne
    cases hord : env.order w.tick (mapEntries c.consumers) with
    | nil =>
      rw [hord] at hperm
      exact absurd (List.Perm.eq_nil hperm.symm) hne
    | cons e rest =>
      rw [h2, hord, List.map_cons, verdicts_cons, (checkSuccess_fresh_some _).1]
      simp only [List.map_cons, List.map_map, responseText_healthy]
      congr

/-- Witness of C4: the started scenario, workers that take every probe, no Accept header. -/
theorem Check_all_healthy_C4_witness :
    ∃ rw w1, startedClient.Check Env.responsive startedWorld freshWriter plainRequest
      = .done rw w1 ∧ rw.status = some 200 :=
  match Check_all_healthy_C4 startedClient Env.responsive startedWorld plainRequest
      (by decide) (fun _ _ _ => rfl) (by decide) with
  | ⟨rw, w1, h1, h2, _⟩ => ⟨rw, w1, h1, h2⟩

/-- C4 as stated fails for a registry without workers: the body holds `null` where the claim
promises an array with no entries. -/
theorem Check_all_healthy_C4_counterexample :
    ((New []).Start World.init).2.1.consumers = some [] ∧
    ∃ rw w1, ((New []).Start World.init).2.1.Check Env.responsive
        ((New []).Start World.init).2.2 freshWriter plainRequest = .done rw w1 ∧
      rw.status = some 200 ∧ rw.body = "\x7b\"consumers\":null\x7d" ∧
      rw.body ≠ "\x7b\"consumers\":[]\x7d" ∧
      startsWith rw.body.data "\x7b\"consumers\":[".data = false := by
  refine ⟨rfl, _, _, rfl, ?_, ?_, ?_, ?_⟩ <;> decide

/-- C3 at its failing input: in the started scenario the task of forwarderA tries to write a
failure report on its check channel (channel 0) before `Check` and keeps trying. The
channel cannot hold the report, so `Check` reads length 0; it then parks in its probe when
nothing takes the probe, and answers 200 with both workers healthy when something does.
What `Check` does with its counter is as claimed: with `k ≥ 1` failed workers counted the
answer is 500 with the count in the body, and 200 with no failed worker counted. -/
theorem Check_after_failure_report_C3 :
    chanLen (yield Env.reporting startedWorld) 0 = 0 ∧
    (∃ w1, startedClient.Check Env.reporting (yield Env.reporting startedWorld) freshWriter
      plainRequest = .blocked w1) ∧
    (∃ rw w1, startedClient.Check Env.reportingTaken (yield Env.reportingTaken startedWorld)
        freshWriter plainRequest = .done rw w1 ∧
      rw.status = some 200 ∧
      rw.body = "\x7b\"consumers\":[\x7b\"healthy\":true,\"message\":\"Consumer Name: forwarderA\"\x7d,\x7b\"healthy\":true,\"message\":\"Consumer Name: forwarderB\"\x7d]\x7d") ∧
    (∀ k resp, 0 < k → (checkReply freshWriter k resp).status = some 500 ∧
      (checkReply freshWriter k resp).body = "Number of failed consumers: " ++ Nat.repr k) ∧
    (∀ resp, (checkReply freshWriter 0 resp).status = some 200) ∧
    (checkReply freshWriter 1 { Consumers := none }).body = "Number of failed consumers: 1" := by
  refine ⟨by decide, ⟨_, rfl⟩, ⟨_, _, rfl, by decide, by decide⟩, ?_, ?_, by decide⟩
  · intro k resp hk
    exact (checkReply_fresh k resp).1 hk
  · intro resp
    exact ((checkReply_fresh 0 resp).2 rfl).1

/-- C5 at its failing input: in the started scenario no worker takes the probe and none has
written anything; `Check` parks in the probe of the first worker it visits, having sent
nothing, and so writes no response at all. -/
theorem Check_unresponsive_worker_C5 :
    ∃ w1, startedClient.Check Env.silent startedWorld freshWriter plainRequest = .blocked w1 ∧
      w1.sent = [] ∧
      ∀ rw w2, startedClient.Check Env.silent startedWorld freshWriter plainRequest
        ≠ .done rw w2 := by
  refine ⟨_, rfl, rfl, ?_⟩
  intro rw w2 h
  have h2 : startedClient.Check Env.silent startedWorld freshWriter plainRequest
      = .blocked (yield Env.silent startedWorld) := rfl
  rw [h2] at h
  cases h

/-! ## A `Check` interleaved with a `Start` -/

theorem run_cons (env : Env) (r : Request) (a : Actor) (l : List Actor) (s : Sys) :
    run env r (a :: l) s = run env r l (step env r s a) := rfl

theorem run_append (env : Env) (r : Request) (l1 l2 : List Actor) (s : Sys) :
    run env r (l1 ++ l2) s = run env r l2 (run env r l1 s) := by
  simp [run, List.foldl_append]

theorem run_start_loop (env : Env) (r : Request) (k : Nat) (todo ms : List Mapping)
    (reg : Registry) (w : World) (cp : CheckPc) (hk : k ≤ todo.length) :
    run env r (List.replicate k Actor.start)
        { client := { mappings := ms, consumers := some reg }, world := w,
          startPc := .loop todo, checkPc := cp }
      = { client := { mappings := ms, consumers := some (startLoop (todo.take k) reg w).1 },
          world := (startLoop (todo.take k) reg w).2,
          startPc := .loop (todo.drop k), checkPc := cp } := by
  induction k generalizing todo reg w with
  | zero => simp [run, startLoop]
  | succ k ih =>
    cases todo with
    | nil => simp at hk
    | cons m rest =>
      rw [List.replicate_succ, run_cons]
      simp only [step, startStep, mapEntries, Option.getD_some]
      rw [ih rest _ _ (by simpa using hk)]
      simp [startLoop]

theorem run_start_init (env : Env) (r : Request) (c : Client) (w : World) (k : Nat)
    (hk : k ≤ c.mappings.length) :
    run env r (List.replicate (k + 1) Actor.start) (Sys.init c w)
      = { client := { mappings := c.mappings,
                      consumers := some (startLoop (c.mappings.take k) [] w).1 },
          world := (startLoop (c.mappings.take k) [] w).2,
          startPc := .loop (c.mappings.drop k), checkPc := .entry } := by
  rw [List.replicate_succ, run_cons]
  simp only [step, startStep, Sys.init]
  exact run_start_loop env r k c.mappings c.mappings [] w .entry hk

theorem run_start_all (env : Env) (r : Request) (c : Client) (w : World) :
    run env r (List.replicate (c.mappings.length + 2) Actor.start) (Sys.init c w)
      = { client := (c.Start w).2.1, world := (c.Start w).2.2,
          startPc := .returned, checkPc := .entry } := by
  rw [List.replicate_succ', run_append, run_start_init env r c w c.mappings.length (Nat.le_refl _)]
  simp [run, step, startStep, Client.Start]

theorem startStep_checkPc (s : Sys) : (startStep s).checkPc = s.checkPc := by
  unfold startStep
  split <;> rfl

theorem run_check_stuck (env : Env) (r : Request) (n : Nat) (s : Sys)
    (h : s.checkPc = .blocked ∨ ∃ rw, s.checkPc = .returned rw) :
    run env r (List.replicate n Actor.check) s = s := by
  induction n with
  | zero => rfl
  | succ n ih =>
    rw [List.replicate_succ, run_cons]
    have hstep : step env r s Actor.check = s := by
      rcases h with h | ⟨rw, h⟩ <;> simp [step, checkStep, h]
    rw [hstep, ih]

theorem run_check_loop (env : Env) (r : Request) (l : Registry) (stopped : Nat)
    (resp : checkResponse) (c : Client) (w : World) (sp : StartPc) (n : Nat)
    (hn : l.length + 1 ≤ n) :
    run env r (List.replicate n Actor.check)
        { client := c, world := w, startPc := sp, checkPc := .loop l stopped resp }
      = match checkLoop env l stopped resp w with
        | .done a w1 =>
          { client := c, world := w1, startPc := sp,
            checkPc := .returned (checkReply freshWriter a.1 a.2) }
        | .blocked w1 => { client := c, world := w1, startPc := sp, checkPc := .blocked } := by
  induction l generalizing stopped resp w n with
  | nil =>
    cases n with
    | zero => simp at hn
    | succ n =>
      rw [List.replicate_succ, run_cons]
      simp only [step, checkStep, checkLoop]
      exact run_check_stuck env r n _ (Or.inr ⟨_, rfl⟩)
  | cons e rest ih =>
    rcases e with ⟨k, consumer⟩
    cases n with
    | zero => simp at hn
    | succ n =>
      rw [List.replicate_succ, run_cons]
      simp only [step, checkStep, checkLoop]
      cases he : checkEntry env consumer stopped resp w with
      | blocked w1 =>
        simp only
        exact run_check_stuck env r n _ (Or.inl rfl)
      | done a w1 =>
        rcases a with ⟨stopped1, resp1⟩
        simp only
        exact ih stopped1 resp1 w1 n (by simpa using hn)

theorem run_check_alone (env : Env) (r : Request) (c : Client) (w : World) (n : Nat)
    (haccept : acceptRefused (headerGet r.Header acceptHeader) = false)
    (hn : (mapEntries c.consumers).length + 2 ≤ n) :
    run env r (List.replicate n Actor.check) (Sys.init c w)
      = match c.Check env w freshWriter r with
        | .done rw w1 => { client := c, world := w1, startPc := .entry, checkPc := .returned rw }
        | .blocked w1 => { client := c, world := w1, startPc := .entry, checkPc := .blocked } := by
  cases n with
  | zero => simp at hn
  | succ n =>
    have hlen : (env.order w.tick (mapEntries c.consumers)).length + 1 ≤ n := by
      rw [(env.order_perm w.tick (mapEntries c.consumers)).length_eq]
      omega
    rw [List.replicate_succ, run_cons]
    simp only [step, checkStep, Sys.init, haccept, Bool.false_eq_true, if_false]
    rw [run_check_loop env r _ 0 _ c w .entry n hlen, Check_accepted c env w freshWriter r haccept]
    cases checkLoop env (env.order w.tick (mapEntries c.consumers)) 0
        { Consumers := none } w with
    | blocked w1 => rfl
    | done a w1 => rfl

theorem run_keeps_range (env : Env) (r : Request) (L : Registry) (sched : List Actor)
    (s : Sys) (h0 : s.checkPc ≠ .entry)
    (h : ∀ todo stopped resp, s.checkPc = .loop todo stopped resp →
      ∃ visited, visited ++ todo = L) :
    ∀ todo stopped resp, (run env r sched s).checkPc = .loop todo stopped resp →
      ∃ visited, visited ++ todo = L := by
  induction sched generalizing s with
  | nil => exact h
  | cons a rest ih =>
    rw [run_cons]
    cases a with
    | start =>
      apply ih
      · simpa [step, startStep_checkPc] using h0
      · simpa [step, startStep_checkPc] using h
    | check =>
      cases hcp : s.checkPc with
      | entry => exact absurd hcp h0
      | blocked =>
        have hstep : step env r s Actor.check = s := by simp [step, checkStep, hcp]
        rw [hstep]
        exact ih s h0 h
      | returned rw =>
        have hstep : step env r s Actor.check = s := by simp [step, checkStep, hcp]
        rw [hstep]
        exact ih s h0 h
      | loop todo stopped resp =>
        rcases h todo stopped resp hcp with ⟨visited, hv⟩
        cases todo with
        | nil =>
          apply ih
          · simp [step, checkStep, hcp]
          · intro t2 s2 r2 h2
            simp [step, checkStep, hcp] at h2
        | cons e more =>
          rcases e with ⟨k, consumer⟩
          cases he : checkEntry env consumer stopped resp s.world with
          | blocked w1 =>
            apply ih
            · simp [step, checkStep, hcp, he]
            · intro t2 s2 r2 h2
              simp [step, checkStep, hcp, he] at h2
          | done a w1 =>
            rcases a with ⟨stopped1, resp1⟩
            apply ih
            · simp [step, checkStep, hcp, he]
            · intro t2 s2 r2 h2
              simp only [step, checkStep, hcp, he, CheckPc.loop.injEq] at h2
              rcases h2 with ⟨rfl, _, _⟩
              exact ⟨visited ++ [(k, consumer)], by simpa using hv⟩

/-- C8 as amended: `Start` and `Check` run as two goroutines over the unsynchronised field
`consumers`; run alone, their steps compose to `Start` and to `Check`. A `Check` that
evaluates its range before `Start` has run line 52 iterates over the old registry. A `Check`
that evaluates it after line 52 and `k` rounds of the loop of `Start` iterates over the
registry built from the first `k` mappings only, whose keys are the distinct names among
them (no entry for `k = 0`), and however `Start` goes on, the entries it still has to visit
are a tail of that list. -/
theorem Check_during_Start_C8 (c : Client) (w : World) (env : Env) (r : Request)
    (haccept : acceptRefused (headerGet r.Header acceptHeader) = false) :
    run env r (List.replicate (c.mappings.length + 2) Actor.start) (Sys.init c w)
      = { client := (c.Start w).2.1, world := (c.Start w).2.2,
          startPc := .returned, checkPc := .entry } ∧
    (∀ n, (mapEntries c.consumers).length + 2 ≤ n →
      run env r (List.replicate n Actor.check) (Sys.init c w)
        = match c.Check env w freshWriter r with
          | .done rw w1 =>
            { client := c, world := w1, startPc := .entry, checkPc := .returned rw }
          | .blocked w1 =>
            { client := c, world := w1, startPc := .entry, checkPc := .blocked }) ∧
    ((run env r [Actor.check] (Sys.init c w)).checkPc
        = .loop (env.order w.tick (mapEntries c.consumers)) 0 { Consumers := none } ∧
      ∀ rest todo stopped resp,
        (run env r (Actor.check :: rest) (Sys.init c w)).checkPc = .loop todo stopped resp →
        ∃ visited, visited ++ todo = env.order w.tick (mapEntries c.consumers)) ∧
    (∀ k, k ≤ c.mappings.length →
      ∃ reg,
        (run env r (List.replicate (k + 1) Actor.start) (Sys.init c w)).client.consumers
          = some reg ∧
        reg.map Prod.fst = ((c.mappings.take k).map Mapping.Forwarder).dedup ∧
        (run env r (List.replicate (k + 1) Actor.start ++ [Actor.check])
            (Sys.init c w)).checkPc
          = .loop (env.order w.tick reg) 0 { Consumers := none } ∧
        (env.order w.tick reg).Perm reg ∧
        ∀ rest todo stopped resp,
          (run env r (List.replicate (k + 1) Actor.start ++ Actor.check :: rest)
              (Sys.init c w)).checkPc = .loop todo stopped resp →
          ∃ visited, visited ++ todo = env.order w.tick reg) := by
  have hfirst : (run env r [Actor.check] (Sys.init c w)).checkPc
      = .loop (env.order w.tick (mapEntries c.consumers)) 0 { Consumers := none } := by
    simp [run, step, checkStep, Sys.init, haccept]
  refine ⟨run_start_all env r c w, fun n hn => run_check_alone env r c w n haccept hn,
    ⟨hfirst, ?_⟩, ?_⟩
  · intro rest todo stopped resp hrun
    have hsplit : run env r (Actor.check :: rest) (Sys.init c w)
        = run env r rest (run env r [Actor.check] (Sys.init c w)) := rfl
    rw [hsplit] at hrun
    refine run_keeps_range env r _ rest _ ?_ ?_ todo stopped resp hrun
    · rw [hfirst]
      intro h
      cases h
    · intro t2 s2 r2 h2
      rw [hfirst] at h2
      simp only [CheckPc.loop.injEq] at h2
      exact ⟨[], by simp [h2.1]⟩
  · intro k hk
    have hstart := run_start_init env r c w k hk
    have htick : (startLoop (c.mappings.take k) [] w).2.tick = w.tick :=
      (startLoop_sent _ _ _).2
    have hcheck : (run env r (List.replicate (k + 1) Actor.start ++ [Actor.check])
          (Sys.init c w)).checkPc
        = .loop (env.order w.tick (startLoop (c.mappings.take k) [] w).1) 0
            { Consumers := none } := by
      rw [run_append, hstart]
      simp [run, step, checkStep, haccept, mapEntries, htick]
    refine ⟨(startLoop (c.mappings.take k) [] w).1, by rw [hstart], ?_, hcheck,
      env.order_perm _ _, ?_⟩
    · rw [startLoop_fst, foldl_mapInsert]
      simp [keepLast_keys, handlesFrom_keys]
    · intro rest todo stopped resp hrun
      have hsplit : run env r (List.replicate (k + 1) Actor.start ++ Actor.check :: rest)
            (Sys.init c w)
          = run env r rest (run env r (List.replicate (k + 1) Actor.start ++ [Actor.check])
              (Sys.init c w)) := by
        rw [← run_append]
        simp
      rw [hsplit] at hrun
      refine run_keeps_range env r _ rest _ ?_ ?_ todo stopped resp hrun
      · rw [hcheck]
        intro h
        cases h
      · intro t2 s2 r2 h2
        rw [hcheck] at h2
        simp only [CheckPc.loop.injEq] at h2
        exact ⟨[], by simp [h2.1]⟩

/-- Witness of C8: the started scenario and a request without Accept header. -/
theorem Check_during_Start_C8_witness :
    run Env.responsive plainRequest
        (List.replicate (startedClient.mappings.length + 2) Actor.start)
        (Sys.init startedClient startedWorld)
      = { client := (startedClient.Start startedWorld).2.1,
          world := (startedClient.Start startedWorld).2.2,
          startPc := .returned, checkPc := .entry } :=
  (Check_during_Start_C8 startedClient startedWorld Env.responsive plainRequest
    (by decide)).1

/-- C8 as stated fails: in the started scenario a second `Start` runs line 52 and its first
round, then `Check` evaluates its range and visits forwarderA only, while `Start` goes on to
its return. The old and the new registry both hold forwarderA and forwarderB; `Check`
answers with the verdict of forwarderA alone. Had `Check` evaluated its range right after
line 52, it would visit nothing. -/
theorem Check_during_Start_C8_counterexample :
    (mapEntries startedClient.consumers).map Prod.fst = ["forwarderA", "forwarderB"] ∧
    (run Env.responsive plainRequest [Actor.start, Actor.start, Actor.check]
        (Sys.init startedClient startedWorld)).checkPc
      = .loop [("forwarderA", { name := "forwarderA", check := 4, stop := 5 })] 0
          { Consumers := none } ∧
    (run Env.responsive plainRequest [Actor.start, Actor.check]
        (Sys.init startedClient startedWorld)).checkPc
      = .loop [] 0 { Consumers := none } ∧
    (run Env.responsive plainRequest
        [Actor.start, Actor.start, Actor.check, Actor.check, Actor.start, Actor.check,
          Actor.start]
        (Sys.init startedClient startedWorld)).startPc = .returned ∧
    (mapEntries (run Env.responsive plainRequest
        [Actor.start, Actor.start, Actor.check, Actor.check, Actor.start, Actor.check,
          Actor.start]
        (Sys.init startedClient startedWorld)).client.consumers).map Prod.fst
      = ["forwarderA", "forwarderB"] ∧
    ∃ rw, (run Env.responsive plainRequest
        [Actor.start, Actor.start, Actor.check, Actor.check, Actor.start, Actor.check,
          Actor.start]
        (Sys.init startedClient startedWorld)).checkPc = .returned rw ∧
      rw.status = some 200 ∧
      rw.body = "\x7b\"consumers\":[\x7b\"healthy\":true,\"message\":\"Consumer Name: forwarderA\"\x7d]\x7d" := by
  refine ⟨by decide, by decide, by decide, by decide, by decide, _, rfl, ?_, ?_⟩ <;> decide

end Supervisor
